import Mathlib

/-!
# go-files-api: the request dispatcher and the 7-Zip listing reader

A shallow embedding of `src/fileserver/server.go`.

* Go strings are modelled as `List Char` (abbreviated `Str`): the text taken in is valid
  UTF-8, one `Char` per rune.  Literals are written `"...".toList`.
* `int64` is `Int`; the only producer of an `int64` from text, `strconv.ParseInt`, keeps its
  saturation at the two ends of the 64-bit range.
* A Go run-time panic (nil pointer dereference, index out of range) is the value `none` of the
  functions that can panic.
* The operating system, the two spawned tools and the file system are the fields of `World`;
  every call made to them is recorded in a log of `Event`s.
* Library functions (`regexp`, `strings`, `strconv`, `time`, `path`, `encoding/json`) are
  modelled after the Go standard library (Go 1.22) as far as this program uses them.
-/

namespace GoFilesApi

/-- A Go string: a sequence of runes. -/
abbrev Str := List Char

/-! ## `strings` and `unicode` -/

/-- The call `strings.Split(s, "\n")`: the pieces between newlines; an empty text gives one
empty piece, a text ending in a newline gives a last empty piece. -/
def splitLines : Str → List Str
  | [] => [[]]
  | c :: cs =>
    if c = '\n' then [] :: splitLines cs
    else
      match splitLines cs with
      | [] => [[c]]
      | l :: ls => (c :: l) :: ls

/-- Go `unicode.IsSpace`: the Latin-1 spaces and the code points with the White_Space
property. -/
def isSpace (c : Char) : Bool :=
  c = '\t' || c = '\n' || c = '\x0b' || c = '\x0c' || c = '\r' || c = ' '
    || c = '\u0085' || c = '\u00a0' || c = '\u1680'
    || (0x2000 ≤ c.toNat && c.toNat ≤ 0x200a)
    || c = '\u2028' || c = '\u2029' || c = '\u202f' || c = '\u205f' || c = '\u3000'

/-- Go `strings.TrimSpace`: leading and trailing white space removed. -/
def trimSpace (s : Str) : Str :=
  ((s.dropWhile isSpace).reverse.dropWhile isSpace).reverse

/-! ## `regexp`

Only the constructs of the three patterns of `parse7zipOutput` are modelled: literal
characters, a character class repeated a fixed number of times (`x{n}`), a greedy `x+`, the
end anchor `$` and capture groups around one repeated class.  Matching is the leftmost-first
(backtracking) discipline of Go: a greedy `x+` first tries the longest run and gives
characters back one at a time. -/

/-- One element of a pattern. The flag `captured` says that the element is wrapped in a
capture group. -/
inductive Node where
  | lit (c : Char)
  | rep (p : Char → Bool) (n : Nat) (captured : Bool)
  | plus (p : Char → Bool) (captured : Bool)
  | eol

/-- The class `\s` of Go regular expressions: tab, newline, form feed, carriage return,
space. -/
def reSpace (c : Char) : Bool :=
  c = '\t' || c = '\n' || c = '\x0c' || c = '\r' || c = ' '

/-- The class `.` (without the `s` flag): every character but the newline. -/
def reDot (c : Char) : Bool := c != '\n'

/-- The class of the single character `-`. -/
def reDash (c : Char) : Bool := c = '-'

/-- Greedy `x*` followed by the continuation `k`: the text taken so far is kept reversed in
`acc`; the longest run is tried first, then one character less, and so on. -/
def greedyStar {α : Type} (p : Char → Bool) (k : Str → Str → Option α) : Str → Str → Option α
  | acc, [] => k acc.reverse []
  | acc, c :: cs =>
    if p c then
      match greedyStar p k (c :: acc) cs with
      | some r => some r
      | none => k acc.reverse (c :: cs)
    else k acc.reverse (c :: cs)

/-- Greedy `x+` followed by the continuation `k`. -/
def greedyPlus {α : Type} (p : Char → Bool) (k : Str → Str → Option α) : Str → Option α
  | [] => none
  | c :: cs => if p c then greedyStar p k [c] cs else none

/-- Exactly `n` characters of the class `p`: the text taken and the rest. -/
def takeExactly (p : Char → Bool) : Nat → Str → Option (Str × Str)
  | 0, s => some ([], s)
  | _ + 1, [] => none
  | n + 1, c :: cs =>
    if p c then
      match takeExactly p n cs with
      | some (a, r) => some (c :: a, r)
      | none => none
    else none

/-- Adds a group to the groups closed so far when the element is a capture group. -/
def pushCapture (captured : Bool) (text : Str) (caps : List Str) : List Str :=
  if captured then caps ++ [text] else caps

/-- Matches the pattern at the start of the text: the capture groups in order, and the text
left after the match. -/
def matchHere : List Node → Str → List Str → Option (List Str × Str)
  | [], s, caps => some (caps, s)
  | Node.lit c :: ns, s, caps =>
    match s with
    | [] => none
    | d :: ds => if c = d then matchHere ns ds caps else none
  | Node.rep p n captured :: ns, s, caps =>
    match takeExactly p n s with
    | some (a, r) => matchHere ns r (pushCapture captured a caps)
    | none => none
  | Node.plus p captured :: ns, s, caps =>
    greedyPlus p (fun a r => matchHere ns r (pushCapture captured a caps)) s
  | Node.eol :: ns, s, caps =>
    match s with
    | [] => matchHere ns [] caps
    | _ :: _ => none

/-- A compiled pattern: whether it starts with `^`, and its elements. -/
structure Regexp where
  anchored : Bool
  nodes : List Node

/-- The leftmost match: tried at the start, and for a pattern without `^` at every later
position in turn. The result is the text from the start of the match on, the capture groups
and the text left after the match. -/
def findFrom (nodes : List Node) (anchored : Bool) : Str → Option (Str × List Str × Str)
  | [] =>
    match matchHere nodes [] [] with
    | some (caps, rest) => some ([], caps, rest)
    | none => none
  | c :: cs =>
    match matchHere nodes (c :: cs) [] with
    | some (caps, rest) => some (c :: cs, caps, rest)
    | none => if anchored then none else findFrom nodes anchored cs

/-- Go `(*Regexp).MatchString`. -/
def Regexp.MatchString (re : Regexp) (s : Str) : Bool :=
  (findFrom re.nodes re.anchored s).isSome

/-- Go `(*Regexp).FindStringSubmatch`: the text of the whole match followed by the capture
groups, or `none` (the nil slice) when the text does not match. -/
def Regexp.FindStringSubmatch (re : Regexp) (s : Str) : Option (List Str) :=
  match findFrom re.nodes re.anchored s with
  | some (start, caps, rest) => some (start.take (start.length - rest.length) :: caps)
  | none => none

/-- The literal characters of a word as pattern elements. -/
def litWord (w : Str) : List Node := w.map Node.lit

/-- The pattern `Date\s+Time\s+Attr\s+Size\s+Compressed\s+Name`. -/
def matchDate : Regexp :=
  { anchored := false
    nodes :=
      litWord "Date".toList ++ [Node.plus reSpace false] ++
      litWord "Time".toList ++ [Node.plus reSpace false] ++
      litWord "Attr".toList ++ [Node.plus reSpace false] ++
      litWord "Size".toList ++ [Node.plus reSpace false] ++
      litWord "Compressed".toList ++ [Node.plus reSpace false] ++
      litWord "Name".toList }

/-- The pattern `^(-+)\s+(-+)\s+(-+)\s+(-+)\s+(-+)$`. -/
def matchLines : Regexp :=
  { anchored := true
    nodes :=
      [Node.plus reDash true, Node.plus reSpace false,
       Node.plus reDash true, Node.plus reSpace false,
       Node.plus reDash true, Node.plus reSpace false,
       Node.plus reDash true, Node.plus reSpace false,
       Node.plus reDash true, Node.eol] }

/-- The largest count Go accepts in `x{n}`; `regexp.Compile` fails above it. -/
def maxRepeat : Nat := 1000

/-- The text `^(.{a})\s+(.{b})\s+(.{c})\s+(.{d})\s+(.+)$` compiled by `regexp.Compile`: `none`
(the nil pointer the code keeps, the error being dropped) when a count is over the limit. -/
def compileRow (a b c d : Nat) : Option Regexp :=
  if a ≤ maxRepeat ∧ b ≤ maxRepeat ∧ c ≤ maxRepeat ∧ d ≤ maxRepeat then
    some
      { anchored := true
        nodes :=
          [Node.rep reDot a true, Node.plus reSpace false,
           Node.rep reDot b true, Node.plus reSpace false,
           Node.rep reDot c true, Node.plus reSpace false,
           Node.rep reDot d true, Node.plus reSpace false,
           Node.plus reDot true, Node.eol] }
  else none

/-! ## `strconv` -/

/-- The two errors of `strconv`: text that is no number, and a number outside the range. -/
inductive NumError where
  | invalidText
  | outOfRange
  deriving DecidableEq, Repr

/-- The largest `uint64`. -/
def maxUint64 : Nat := 2 ^ 64 - 1

/-- The digit loop of `strconv.ParseUint(s, 10, 64)`: `n` is the number read so far. The
loop stops at the first character that is no decimal digit (value 0, text error) and at the
first digit that takes the number over the range (largest value, range error). -/
def parseUintLoop : Str → Nat → Nat × Option NumError
  | [], n => (n, none)
  | c :: cs, n =>
    if '0' ≤ c ∧ c ≤ '9' then
      if n ≥ maxUint64 / 10 + 1 then (maxUint64, some NumError.outOfRange)
      else
        let n1 := n * 10 + (c.toNat - '0'.toNat)
        if n1 > maxUint64 then (maxUint64, some NumError.outOfRange)
        else parseUintLoop cs n1
    else (0, some NumError.invalidText)

/-- Go `strconv.ParseUint(s, 10, 64)`. -/
def parseUint (s : Str) : Nat × Option NumError :=
  match s with
  | [] => (0, some NumError.invalidText)
  | _ :: _ => parseUintLoop s 0

/-- Go `strconv.ParseInt(s, 10, 64)`: the value and the error. With a range error the value
is the nearest end of the 64-bit range. -/
def parseInt (s : Str) : Int × Option NumError :=
  match s with
  | [] => (0, some NumError.invalidText)
  | c :: cs =>
    let neg := c = '-'
    let digits := if c = '+' ∨ c = '-' then cs else c :: cs
    match parseUint digits with
    | (_, some NumError.invalidText) => (0, some NumError.invalidText)
    | (un, _) =>
      if ¬ neg ∧ un ≥ 2 ^ 63 then ((2 : Int) ^ 63 - 1, some NumError.outOfRange)
      else if neg ∧ un > 2 ^ 63 then (-(2 : Int) ^ 63, some NumError.outOfRange)
      else (if neg then -(un : Int) else (un : Int), none)

/-- Go `strconv.FormatInt(i, 10)`. -/
def formatInt (i : Int) : Str :=
  if i < 0 then '-' :: Nat.toDigits 10 i.natAbs else Nat.toDigits 10 i.toNat

/-! ## `time` -/

/-- A `time.Time`, kept as its calendar fields and the offset of its zone east of UTC in
seconds. -/
structure Time where
  year : Int
  month : Nat
  day : Nat
  hour : Nat
  minute : Nat
  second : Nat
  nsec : Nat
  offset : Int
  deriving DecidableEq, Repr

/-- The zero `time.Time{}`: January 1 of year 1, 00:00:00 UTC. -/
def Time.zero : Time :=
  { year := 1, month := 1, day := 1, hour := 0, minute := 0, second := 0, nsec := 0, offset := 0 }

/-- A decimal digit. -/
def isDigit (c : Char) : Bool := decide ('0' ≤ c ∧ c ≤ '9')

/-- The value of a decimal digit. -/
def digitVal (c : Char) : Nat := c.toNat - '0'.toNat

/-- The number written by a run of decimal digits. -/
def digitsVal (ds : Str) : Nat := ds.foldl (fun n c => n * 10 + digitVal c) 0

/-- Go `time.getnum`: a number of one or two digits, of exactly two when `fixed`. -/
def getnum (s : Str) (fixed : Bool) : Option (Nat × Str) :=
  match s with
  | [] => none
  | [a] => if isDigit a ∧ ¬ fixed then some (digitVal a, []) else none
  | a :: b :: rest =>
    if isDigit a then
      if isDigit b then some (digitVal a * 10 + digitVal b, rest)
      else if fixed then none else some (digitVal a, b :: rest)
    else none

/-- Go `time.skip` for a layout piece of one character: a space of the layout stands for a
run of spaces of the value, any other character for itself. -/
def skipOne (c : Char) (value : Str) : Option Str :=
  if c = ' ' then
    match value with
    | [] => some []
    | d :: _ => if d = ' ' then some (value.dropWhile (fun x => x = ' ')) else none
  else
    match value with
    | [] => none
    | d :: rest => if d = c then some rest else none

/-- Go `time.daysIn`. -/
def daysIn (month : Nat) (year : Int) : Nat :=
  if month = 2 then
    if year % 4 = 0 ∧ (year % 100 ≠ 0 ∨ year % 400 = 0) then 29 else 28
  else if month = 4 ∨ month = 6 ∨ month = 9 ∨ month = 11 then 30
  else 31

/-- The fraction of a second that `time.Parse` accepts after the seconds although the layout
has none: a period or comma and digits, of which nine count. -/
def fractionalSecond (value : Str) : Nat × Str :=
  match value with
  | sep :: d :: rest =>
    if (sep = '.' ∨ sep = ',') ∧ isDigit d then
      let ds := (d :: rest).takeWhile isDigit
      let kept := ds.take 9
      (digitsVal kept * 10 ^ (9 - kept.length), (d :: rest).dropWhile isDigit)
    else (0, value)
  | _ => (0, value)

/-- The fields read by `time.Parse("2006-01-02 15:04:05", value)`, or `none` for an error. -/
def parseDateTime (value : Str) : Option Time := do
  let (year, v) ←
    match value with
    | a :: b :: c :: d :: rest =>
      if isDigit a ∧ isDigit b ∧ isDigit c ∧ isDigit d then
        some (digitsVal [a, b, c, d], rest)
      else none
    | _ => none
  let v ← skipOne '-' v
  let (month, v) ← getnum v true
  if month = 0 ∨ 12 < month then none
  let v ← skipOne '-' v
  let (day, v) ← getnum v true
  let v ← skipOne ' ' v
  let (hour, v) ← getnum v false
  if 24 ≤ hour then none
  let v ← skipOne ':' v
  let (minute, v) ← getnum v true
  if 60 ≤ minute then none
  let v ← skipOne ':' v
  let (second, v) ← getnum v true
  if 60 ≤ second then none
  let (nsec, v) := fractionalSecond v
  if v ≠ [] then none
  if day < 1 ∨ day > daysIn month year then none
  some
    { year := year, month := month, day := day, hour := hour, minute := minute,
      second := second, nsec := nsec, offset := 0 }

/-- The value of `t, _ = time.Parse("2006-01-02 15:04:05", value)`: the zero time when the
text does not parse. -/
def timeParse (value : Str) : Time :=
  match parseDateTime value with
  | some t => t
  | none => Time.zero

/-! ## The response types -/

/-- The Go struct `FileResponse`; `Files` is a slice of the same type. -/
inductive FileResponse where
  | mk (Directory : Bool) (Filename : Str) (Size : Int) (ModTime : Time)
      (Files : List FileResponse)

/-- Field `Directory`. -/
def FileResponse.Directory : FileResponse → Bool
  | FileResponse.mk d _ _ _ _ => d

/-- Field `Filename`. -/
def FileResponse.Filename : FileResponse → Str
  | FileResponse.mk _ n _ _ _ => n

/-- Field `Size`. -/
def FileResponse.Size : FileResponse → Int
  | FileResponse.mk _ _ s _ _ => s

/-- Field `ModTime`. -/
def FileResponse.ModTime : FileResponse → Time
  | FileResponse.mk _ _ _ t _ => t

/-- Field `Files`. -/
def FileResponse.Files : FileResponse → List FileResponse
  | FileResponse.mk _ _ _ _ fs => fs

/-- The zero value `FileResponse{}`. -/
def FileResponse.empty : FileResponse :=
  FileResponse.mk false [] 0 Time.zero []

/-- The Go struct `ErrorResponse`. -/
structure ErrorResponse where
  Error : Str

/-- The Go struct `InspectResponse`. -/
structure InspectResponse where
  File : Str

/-- The Go struct `ContentsResponse`. `Lines` is `none` for the nil slice. -/
structure ContentsResponse where
  Files : List FileResponse
  Lines : Option (List Str)

/-! ## `parse7zipOutput` -/

/-- The four states of the reader. -/
inductive ParseState where
  | parseStart
  | parseFields
  | parseFiles
  | parseEnd
  deriving DecidableEq, Repr

/-- The local variables of `parse7zipOutput` that live across the lines. -/
structure Parser where
  parseState : ParseState
  fieldLengths : List Nat
  matchRow : Option Regexp
  files : List FileResponse

/-- The variables before the first line: `files` empty, `matchRow` nil, six zero lengths. -/
def Parser.init : Parser :=
  { parseState := ParseState.parseStart
    fieldLengths := [0, 0, 0, 0, 0, 0]
    matchRow := none
    files := [] }

/-- The loop `for i, column := range matches { fieldLengths[i] = len(column) }`. -/
def setLengths (fieldLengths : List Nat) (submatches : List Str) : List Nat :=
  (List.range 6).map fun i =>
    match submatches.get? i with
    | some column => column.length
    | none => fieldLengths.getD i 0

/-- The `else` branch of the `parseFiles` case: the record filled from `row[1]`, `row[3]`
and `row[5]`; `none` is the index-out-of-range panic on a slice too short (the nil slice of a
line that does not match). -/
def fileInfoOfRow (row : List Str) : Option FileResponse :=
  match row.get? 1, row.get? 3, row.get? 5 with
  | some r1, some r3, some r5 =>
    some (FileResponse.mk false r5 (parseInt (trimSpace r3)).1 (timeParse (trimSpace r1)) [])
  | _, _, _ => none

/-- One turn of the loop over the lines; `none` is a panic. -/
def step (st : Parser) (line : Str) : Option Parser :=
  match st.parseState with
  | ParseState.parseStart =>
    if matchDate.MatchString line then some { st with parseState := ParseState.parseFields }
    else some st
  | ParseState.parseFields =>
    if matchLines.MatchString line then
      let submatches := (matchLines.FindStringSubmatch line).getD []
      let lengths := setLengths st.fieldLengths submatches
      some
        { st with
          fieldLengths := lengths
          matchRow := compileRow (lengths.getD 1 0) (lengths.getD 2 0) (lengths.getD 3 0)
            (lengths.getD 4 0)
          parseState := ParseState.parseFiles }
    else some st
  | ParseState.parseFiles =>
    if matchLines.MatchString line then
      some { st with parseState := ParseState.parseEnd, files := st.files ++ [FileResponse.empty] }
    else
      match st.matchRow with
      | none => none
      | some re =>
        match fileInfoOfRow ((re.FindStringSubmatch line).getD []) with
        | none => none
        | some fileInfo => some { st with files := st.files ++ [fileInfo] }
  | ParseState.parseEnd => some st

/-- The loop over the lines, from the variables `st`. -/
def runLines : Parser → List Str → Option Parser
  | st, [] => some st
  | st, line :: rest =>
    match step st line with
    | none => none
    | some st1 => runLines st1 rest

/-- The variables of `parse7zipOutput` after the last line of `output`. -/
def parseRun (output : Str) : Option Parser :=
  runLines Parser.init (splitLines output)

/-- The function `parse7zipOutput`: the records returned, or `none` when it panics. -/
def parse7zipOutput (output : Str) : Option (List FileResponse) :=
  (parseRun output).map fun st => st.files

/-! ## `path` -/

/-- Go `path.Base`: the last element of a slash-separated path, trailing slashes removed
first; `.` for the empty path and `/` for a path of slashes only. -/
def pathBase (path : Str) : Str :=
  if path = [] then ['.']
  else
    let stripped := (path.reverse.dropWhile fun c => c = '/').reverse
    let last := (stripped.reverse.takeWhile fun c => c ≠ '/').reverse
    if last = [] then ['/'] else last

/-! ## `encoding/json` -/

/-- A hexadecimal digit in lower case. -/
def hexDigit (n : Nat) : Char := "0123456789abcdef".toList.getD n '0'

/-- One character of a JSON string as the Go encoder writes it (HTML escaping on, as it is
for `json.NewEncoder`). -/
def jsonEscapeChar (c : Char) : Str :=
  if c = '\\' ∨ c = '\"' then ['\\', c]
  else if c = '\x08' then ['\\', 'b']
  else if c = '\x0c' then ['\\', 'f']
  else if c = '\n' then ['\\', 'n']
  else if c = '\r' then ['\\', 'r']
  else if c = '\t' then ['\\', 't']
  else if c.toNat < 0x20 ∨ c = '<' ∨ c = '>' ∨ c = '&' then
    ['\\', 'u', '0', '0', hexDigit (c.toNat / 16), hexDigit (c.toNat % 16)]
  else if c = '\u2028' then "\\u2028".toList
  else if c = '\u2029' then "\\u2029".toList
  else [c]

/-- A Go string as a JSON string. -/
def jsonString (s : Str) : Str :=
  ['\"'] ++ (s.map jsonEscapeChar).flatten ++ ['\"']

/-- A `bool` as JSON. -/
def jsonBool (b : Bool) : Str := if b then "true".toList else "false".toList

/-- Go `appendInt` of package `time`: a number padded with zeros to a width. -/
def padInt (n width : Nat) : Str :=
  let ds := Nat.toDigits 10 n
  List.replicate (width - ds.length) '0' ++ ds

/-- The fraction of the layout `.999999999`: nothing for zero, else a period and the
nanoseconds without trailing zeros. -/
def formatNano (nsec : Nat) : Str :=
  let ds := ((padInt nsec 9).reverse.dropWhile fun c => c = '0').reverse
  if ds = [] then [] else '.' :: ds

/-- The zone of the layout `Z07:00`. -/
def formatZone (offset : Int) : Str :=
  if offset = 0 then ['Z']
  else
    let zone := offset.natAbs / 60
    (if offset < 0 ∧ 0 < zone then ['-'] else ['+']) ++ padInt (zone / 60) 2 ++ [':']
      ++ padInt (zone % 60) 2

/-- Go `Time.MarshalJSON`: the time in the layout `2006-01-02T15:04:05.999999999Z07:00`
between quotes; an error for a year outside 0..9999 or a zone of 24 hours and more. -/
def marshalTime (t : Time) : Except Str Str :=
  if t.year < 0 ∨ 9999 < t.year then
    Except.error ("json: error calling MarshalJSON for type time.Time: "
      ++ "Time.MarshalJSON: year outside of range [0,9999]").toList
  else if t.offset ≠ 0 ∧ 24 ≤ t.offset.natAbs / 60 / 60 then
    Except.error ("json: error calling MarshalJSON for type time.Time: "
      ++ "Time.MarshalJSON: timezone hour outside of range [0,23]").toList
  else
    Except.ok (['\"'] ++ padInt t.year.toNat 4 ++ ['-'] ++ padInt t.month 2 ++ ['-']
      ++ padInt t.day 2 ++ ['T'] ++ padInt t.hour 2 ++ [':'] ++ padInt t.minute 2 ++ [':']
      ++ padInt t.second 2 ++ formatNano t.nsec ++ formatZone t.offset ++ ['\"'])

/-- Texts joined by commas. -/
def commaJoin : List Str → Str
  | [] => []
  | [x] => x
  | x :: y :: rest => x ++ [','] ++ commaJoin (y :: rest)

mutual
/-- A `FileResponse` as JSON: the fields in the order of the struct; `files` carries
`omitempty` and is left out when the slice is empty. -/
def jsonFileResponse : FileResponse → Except Str Str
  | FileResponse.mk d n sz t fs =>
    match marshalTime t with
    | Except.error e => Except.error e
    | Except.ok tm =>
      match jsonFileResponses fs with
      | Except.error e => Except.error e
      | Except.ok items =>
        Except.ok ("\x7b\"directory\":".toList ++ jsonBool d ++ ",\"filename\":".toList
          ++ jsonString n ++ ",\"size\":".toList ++ formatInt sz ++ ",\"mtime\":".toList ++ tm
          ++ (if items = [] then [] else ",\"files\":[".toList ++ commaJoin items ++ [']'])
          ++ "\x7d".toList)
/-- The elements of a slice of `FileResponse` as JSON. -/
def jsonFileResponses : List FileResponse → Except Str (List Str)
  | [] => Except.ok []
  | f :: fs =>
    match jsonFileResponse f with
    | Except.error e => Except.error e
    | Except.ok x =>
      match jsonFileResponses fs with
      | Except.error e => Except.error e
      | Except.ok xs => Except.ok (x :: xs)
end

/-- An `ErrorResponse` as JSON. -/
def jsonErrorResponse (v : ErrorResponse) : Str :=
  "\x7b\"error\":".toList ++ jsonString v.Error ++ "\x7d".toList

/-- An `InspectResponse` as JSON. -/
def jsonInspectResponse (v : InspectResponse) : Str :=
  "\x7b\"file\":".toList ++ jsonString v.File ++ "\x7d".toList

/-- A slice of strings as JSON: `null` for the nil slice. -/
def jsonLines : Option (List Str) → Str
  | none => "null".toList
  | some ls => ['['] ++ commaJoin (ls.map jsonString) ++ [']']

/-- A `ContentsResponse` as JSON; `Files` is never nil here and is written as an array. -/
def jsonContentsResponse (v : ContentsResponse) : Except Str Str :=
  match jsonFileResponses v.Files with
  | Except.error e => Except.error e
  | Except.ok items =>
    Except.ok ("\x7b\"files\":[".toList ++ commaJoin items ++ "],\"lines\":".toList
      ++ jsonLines v.Lines ++ "\x7d".toList)

/-! ## The world outside the handler -/

/-- What `os.FileInfo` tells about a file. -/
structure FileInfo where
  Name : Str
  Size : Int
  IsDir : Bool
  ModTime : Time

/-- How far the spawning of a tool whose standard output is read gets: `StdoutPipe` fails,
`Start` fails, `ioutil.ReadAll` fails, or all of the output is read. -/
inductive ToolRun where
  | pipeFailed (err : Str)
  | startFailed (err : Str)
  | readFailed (err : Str)
  | output (out : Str)

/-- The answers of the operating system to the calls of one request. An error is its
message (`err.Error()`). `OpenJoined dir elem` is `os.Open(path.Join(dir, elem))`; the
content of an opened file is what `io.Copy` copies from it. -/
structure World where
  Stat : Str → Except Str FileInfo
  ReadDir : Str → Except Str (List FileInfo)
  Run : Str → List Str → ToolRun
  TempDir : Str → Str → Except Str Str
  Start : Str → List Str → Option Str
  Open : Str → Except Str Str
  OpenJoined : Str → Str → Except Str Str

/-- A call made to the operating system. -/
inductive Event where
  | stat (path : Str)
  | readDir (path : Str)
  | command (name : Str) (args : List Str)
  | tempDir (dir pattern : Str)
  | openFile (path : Str)
  | openJoined (dir elem : Str)
  deriving DecidableEq, Repr

/-- The `http.ResponseWriter` as far as the handler uses it: the header map and the bytes
written to the body. Writes to it succeed. -/
structure ResponseWriter where
  header : List (Str × Str)
  body : Str
  deriving DecidableEq, Repr

/-- A response writer of a request not answered yet. -/
def ResponseWriter.fresh : ResponseWriter := { header := [], body := [] }

/-- The call `w.Header().Set(key, value)`. -/
def ResponseWriter.Set (w : ResponseWriter) (key value : Str) : ResponseWriter :=
  { w with header := (key, value) :: w.header.filter fun kv => kv.1 ≠ key }

/-- The value of a header, when it is set. -/
def ResponseWriter.Get (w : ResponseWriter) (key : Str) : Option Str :=
  (w.header.find? fun kv => kv.1 = key).map fun kv => kv.2

/-- Bytes written to the body. -/
def ResponseWriter.Write (w : ResponseWriter) (data : Str) : ResponseWriter :=
  { w with body := w.body ++ data }

/-- The request as far as the handler reads it: `r.URL.Path` and the pairs of the query in
their order. -/
structure Request where
  Path : Str
  Query : List (Str × Str)

/-- The call `r.URL.Query().Get(key)`: the first value of the key, the empty string when there
is none. -/
def Request.QueryGet (r : Request) (key : Str) : Str :=
  match r.Query.find? fun kv => kv.1 = key with
  | some kv => kv.2
  | none => []

/-- The struct `FileServer` as far as the handler reads it. -/
structure FileServer where
  fileRoot : Str

/-- What a run of `handleRequest` leaves: the calls made, the response writer, and the error
returned (`none` for nil). -/
structure Outcome where
  log : List Event
  w : ResponseWriter
  err : Option Str

/-- The call `json.NewEncoder(w).Encode(v)` for a value whose JSON text is `text`: the text
and a newline are written; when the value cannot be marshalled nothing is written and the
error is returned. -/
def encodeTo (log : List Event) (w : ResponseWriter) (text : Except Str Str) : Outcome :=
  match text with
  | Except.ok t => { log := log, w := w.Write (t ++ ['\n']), err := none }
  | Except.error e => { log := log, w := w, err := some e }

/-- The value of `disposition`: `attachment` when the query parameter `download` is the text
`true`, else `inline`. -/
def dispositionOf (r : Request) : Str :=
  if r.QueryGet "download".toList = "true".toList then "attachment".toList else "inline".toList

/-- The header value `disposition + "; filename=\"" + path.Base(p) + "\""`. -/
def contentDisposition (r : Request) (p : Str) : Str :=
  dispositionOf r ++ "; filename=\"".toList ++ pathBase p ++ "\"".toList

/-- The record built from the result of `ioutil.ReadDir` for one entry: the modification
time is that of the directory (`stat`), not that of the entry. -/
def childResponse (stat file : FileInfo) : FileResponse :=
  FileResponse.mk file.IsDir file.Name file.Size stat.ModTime []

/-- The method `handleRequest`; `none` is a panic (of `parse7zipOutput`). -/
def handleRequest (f : FileServer) (world : World) (w : ResponseWriter) (r : Request) :
    Option Outcome :=
  let fullPath := f.fileRoot ++ "/".toList ++ r.Path
  let action := r.QueryGet "action".toList
  let log := [Event.stat fullPath]
  match world.Stat fullPath with
  | Except.error e => some { log := log, w := w, err := some e }
  | Except.ok stat =>
    if stat.IsDir then
      if action ≠ "list".toList ∧ action ≠ "stat".toList then
        some { log := log, w := w, err := some "Cannot open directory".toList }
      else
        let log := log ++ [Event.readDir fullPath]
        match world.ReadDir fullPath with
        | Except.error e => some { log := log, w := w, err := some e }
        | Except.ok filesRead =>
          let files := filesRead.map (childResponse stat)
          let response := FileResponse.mk stat.IsDir stat.Name stat.Size stat.ModTime files
          some (encodeTo log w (jsonFileResponse response))
    else if action = "stat".toList then
      let response := FileResponse.mk stat.IsDir stat.Name stat.Size Time.zero []
      some (encodeTo log w (jsonFileResponse response))
    else if action = "inspect".toList then
      let log := log ++ [Event.command "file".toList [fullPath]]
      match world.Run "file".toList [fullPath] with
      | ToolRun.pipeFailed e => some { log := log, w := w, err := some e }
      | ToolRun.startFailed e => some { log := log, w := w, err := some e }
      | ToolRun.readFailed e => some { log := log, w := w, err := some e }
      | ToolRun.output out =>
        some (encodeTo log w (Except.ok (jsonInspectResponse { File := out })))
    else if action = "contents".toList then
      let log := log ++ [Event.command "7z".toList ["l".toList, fullPath]]
      match world.Run "7z".toList ["l".toList, fullPath] with
      | ToolRun.pipeFailed e => some { log := log, w := w, err := some e }
      | ToolRun.startFailed e => some { log := log, w := w, err := some e }
      | ToolRun.readFailed e => some { log := log, w := w, err := some e }
      | ToolRun.output out =>
        match parse7zipOutput out with
        | none => none
        | some files =>
          some (encodeTo log w (jsonContentsResponse { Files := files, Lines := none }))
    else if action = "extract".toList then
      let toExtract := r.QueryGet "extract".toList
      if toExtract = [] then
        some { log := log, w := w, err := some "Extract required".toList }
      else
        let log := log ++ [Event.tempDir [] "go-fileserver-extract".toList]
        match world.TempDir [] "go-fileserver-extract".toList with
        | Except.error e => some { log := log, w := w, err := some e }
        | Except.ok dir =>
          let args := ["x".toList, fullPath, "-o".toList ++ dir, toExtract]
          let log := log ++ [Event.command "7z".toList args]
          match world.Start "7z".toList args with
          | some e => some { log := log, w := w, err := some e }
          | none =>
            let log := log ++ [Event.openJoined dir toExtract]
            match world.OpenJoined dir toExtract with
            | Except.error e => some { log := log, w := w, err := some e }
            | Except.ok content =>
              let w := w.Set "Content-Disposition".toList (contentDisposition r toExtract)
              some { log := log, w := w.Write content, err := none }
    else
      let w := w.Set "Content-Disposition".toList (contentDisposition r fullPath)
      let log := log ++ [Event.openFile fullPath]
      match world.Open fullPath with
      | Except.error e => some { log := log, w := w, err := some e }
      | Except.ok content => some { log := log, w := w.Write content, err := none }

/-- The method `ServeHTTP`: the handler, and for an error returned by it one
`ErrorResponse` encoded to the response writer; `none` is a panic. -/
def ServeHTTP (f : FileServer) (world : World) (w : ResponseWriter) (r : Request) :
    Option Outcome :=
  match handleRequest f world w r with
  | none => none
  | some out =>
    match out.err with
    | none => some out
    | some e =>
      some { out with w := out.w.Write (jsonErrorResponse { Error := e } ++ ['\n']) }

/-! ## Sample inputs -/

/-- A listing as `7z l` prints it: prologue, header, ruler, two rows, ruler, summary. -/
def listingTwoRows : Str :=
  ("\n7-Zip [64] 16.02\n\nListing archive: pkg.zip\n\n"
    ++ "   Date      Time    Attr         Size   Compressed  Name\n"
    ++ "------------------- ----- ------------ ------------  ------------------------\n"
    ++ "2018-03-05 10:20:30 ....A           11            9  readme.md\n"
    ++ "2018-03-05 10:20:31 ....A           42           30  src/main\n"
    ++ "------------------- ----- ------------ ------------  ------------------------\n"
    ++ "2018-03-05 10:20:31                 53           39  2 files\n").toList

/-- The listing `listingTwoRows` up to and including its second ruler line. -/
def listingToRuler : Str :=
  ("\n7-Zip [64] 16.02\n\nListing archive: pkg.zip\n\n"
    ++ "   Date      Time    Attr         Size   Compressed  Name\n"
    ++ "------------------- ----- ------------ ------------  ------------------------\n"
    ++ "2018-03-05 10:20:30 ....A           11            9  readme.md\n"
    ++ "2018-03-05 10:20:31 ....A           42           30  src/main\n"
    ++ "------------------- ----- ------------ ------------  ------------------------").toList

/-- The summary line that `7z l` prints after the second ruler line. -/
def summaryLine : Str :=
  "2018-03-05 10:20:31                 53           39  2 files\n".toList

/-- A listing with one member whose name holds a space. -/
def listingSpacedName : Str :=
  ("   Date      Time    Attr         Size   Compressed  Name\n"
    ++ "------------------- ----- ------------ ------------  ------------------------\n"
    ++ "2020-01-01 12:00:00 ....A           11            9  my file.txt\n"
    ++ "------------------- ----- ------------ ------------  ------------------------\n").toList

/-- A listing with a blank line between its two rows. -/
def listingBlankLine : Str :=
  ("   Date      Time    Attr         Size   Compressed  Name\n"
    ++ "------------------- ----- ------------ ------------  ------------------------\n"
    ++ "2018-03-05 10:20:30 ....A           11            9  readme.md\n"
    ++ "\n"
    ++ "2018-03-05 10:20:31 ....A           42           30  src/main\n"
    ++ "------------------- ----- ------------ ------------  ------------------------\n").toList

/-- A listing cut off after its only row: no second ruler line, a final newline. -/
def listingCutOff : Str :=
  ("   Date      Time    Attr         Size   Compressed  Name\n"
    ++ "------------------- ----- ------------ ------------  ------------------------\n"
    ++ "2018-03-05 10:20:30 ....A           11            9  readme.md\n").toList

/-- A listing whose only row has a minus sign in its size column. -/
def listingMinusSize : Str :=
  ("   Date      Time    Attr         Size   Compressed  Name\n"
    ++ "------------------- ----- ------------ ------------  ------------------------\n"
    ++ "2018-03-05 10:20:30 ....A           -5            9  readme.md\n"
    ++ "------------------- ----- ------------ ------------  ------------------------\n").toList

/-- Output of `7z l` for a file that is no archive: a header line is never printed. -/
def outputNoHeader : Str :=
  "\n7-Zip [64] 16.02\n\nERROR: hello.txt : Can not open the file as archive\n".toList

/-- Output with a header line and no ruler line after it. -/
def outputNoRuler : Str :=
  ("Listing archive: pkg.zip\n"
    ++ "   Date      Time    Attr         Size   Compressed  Name\n"
    ++ "2018-03-05 10:20:30 ....A           11            9  readme.md\n").toList

/-- A modification time of the sample files. -/
def sampleTime (day : Nat) : Time :=
  { year := 2018, month := 3, day := day, hour := 10, minute := 20, second := 30, nsec := 0,
    offset := 3600 }

/-- The sample file `hello.txt` of three bytes. -/
def helloInfo : FileInfo :=
  { Name := "hello.txt".toList, Size := 3, IsDir := false, ModTime := sampleTime 5 }

/-- The sample archive `pkg.zip`. -/
def pkgInfo : FileInfo :=
  { Name := "pkg.zip".toList, Size := 3000, IsDir := false, ModTime := sampleTime 6 }

/-- The sample directory `d`. -/
def dirInfo : FileInfo :=
  { Name := "d".toList, Size := 4096, IsDir := true, ModTime := sampleTime 7 }

/-- The two entries of the sample directory `d`, each with a modification time of its own. -/
def dirEntries : List FileInfo :=
  [{ Name := "a".toList, Size := 1, IsDir := false, ModTime := sampleTime 1 },
   { Name := "b".toList, Size := 2, IsDir := false, ModTime := sampleTime 2 }]

/-- A server rooted at `/srv/files`. -/
def sampleServer : FileServer := { fileRoot := "/srv/files".toList }

/-- A world with the file `hello.txt`, the archive `pkg.zip` and the directory `d` under the
root of `sampleServer`. -/
def sampleWorld : World :=
  { Stat := fun p =>
      if p = "/srv/files//hello.txt".toList then Except.ok helloInfo
      else if p = "/srv/files//pkg.zip".toList then Except.ok pkgInfo
      else if p = "/srv/files//d".toList then Except.ok dirInfo
      else Except.error "stat: no such file or directory".toList
    ReadDir := fun p =>
      if p = "/srv/files//d".toList then Except.ok dirEntries
      else Except.error "open: not a directory".toList
    Run := fun _ _ => ToolRun.output listingTwoRows
    TempDir := fun _ _ => Except.ok "/tmp/go-fileserver-extract042".toList
    Start := fun _ _ => none
    Open := fun p =>
      if p = "/srv/files//hello.txt".toList then Except.ok "abc".toList
      else Except.error "open: no such file or directory".toList
    OpenJoined := fun _ elem =>
      if elem = "readme.md".toList then Except.ok "hello world".toList
      else Except.error "open: no such file or directory".toList }

/-- A directory whose modification time lies in the year 10000. -/
def lateDirInfo : FileInfo :=
  { Name := "d".toList, Size := 4096, IsDir := true
    ModTime :=
      { year := 10000, month := 1, day := 1, hour := 0, minute := 0, second := 0, nsec := 0,
        offset := 0 } }

/-- The world `sampleWorld` with the directory `d` last modified in the year 10000. -/
def lateWorld : World :=
  { sampleWorld with
    Stat := fun p =>
      if p = "/srv/files//d".toList then Except.ok lateDirInfo
      else Except.error "stat: no such file or directory".toList }

/-- The request `GET /hello.txt?action=stat`. -/
def statRequest : Request :=
  { Path := "/hello.txt".toList, Query := [("action".toList, "stat".toList)] }

/-- The request `GET /hello.txt?download=true`. -/
def downloadRequest : Request :=
  { Path := "/hello.txt".toList, Query := [("download".toList, "true".toList)] }

/-- The request `GET /pkg.zip?action=extract&extract=readme.md`. -/
def extractRequest : Request :=
  { Path := "/pkg.zip".toList
    Query := [("action".toList, "extract".toList), ("extract".toList, "readme.md".toList)] }

/-- The request `GET /d?action=inspect`. -/
def inspectDirRequest : Request :=
  { Path := "/d".toList, Query := [("action".toList, "inspect".toList)] }

/-- The request `GET /d?action=list`. -/
def listDirRequest : Request :=
  { Path := "/d".toList, Query := [("action".toList, "list".toList)] }

/-! ## Where the records of `parse7zipOutput` come from -/

/-- A record that the `else` branch of the `parseFiles` case builds from a line of `ls`
matched by a compiled row pattern. -/
def FromRow (ls : List Str) (r : FileResponse) : Prop :=
  ∃ line ∈ ls, ∃ a b c d re row, compileRow a b c d = some re ∧
    re.FindStringSubmatch line = some row ∧ fileInfoOfRow row = some r

/-- The invariant of the loop: every record is the zero record or comes from a row, and the
row pattern, when there is one, was compiled from four widths. -/
def LoopInv (ls : List Str) (st : Parser) : Prop :=
  (∀ r ∈ st.files, r = FileResponse.empty ∨ FromRow ls r) ∧
    ∀ re, st.matchRow = some re → ∃ a b c d, compileRow a b c d = some re

/-- The widths that the `parseFields` case reads off a ruler line. -/
def rulerLengths (ruler : Str) : List Nat :=
  setLengths [0, 0, 0, 0, 0, 0] ((matchLines.FindStringSubmatch ruler).getD [])

/-- The row pattern that the `parseFields` case compiles for a ruler line. -/
def rulerRow (ruler : Str) : Option Regexp :=
  compileRow ((rulerLengths ruler).getD 1 0) ((rulerLengths ruler).getD 2 0)
    ((rulerLengths ruler).getD 3 0) ((rulerLengths ruler).getD 4 0)

/-- A result of the row pattern that is no match or a match whose fifth group is `name` and
that reaches the end of the line. -/
def EndsInName (name : Str) (x : Option (List Str × Str)) : Prop :=
  x = none ∨ ∃ g1 g2 g3 g4, x = some ([g1, g2, g3, g4, name], [])

/-- The row pattern of a ruler with groups of 19, 5, 12 and 12 dashes. -/
def sampleRow : Regexp :=
  { anchored := true
    nodes :=
      [Node.rep reDot 19 true, Node.plus reSpace false,
       Node.rep reDot 5 true, Node.plus reSpace false,
       Node.rep reDot 12 true, Node.plus reSpace false,
       Node.rep reDot 12 true, Node.plus reSpace false,
       Node.plus reDot true, Node.eol] }

/-! ## Lemmas on the line loop -/

theorem splitLines_ne_nil (s : Str) : splitLines s ≠ [] := by
  cases s with
  | nil => simp [splitLines]
  | cons c cs =>
    unfold splitLines
    split
    · simp
    · split <;> simp

theorem splitLines_append_newline (s t : Str) :
    splitLines (s ++ '\n' :: t) = splitLines s ++ splitLines t := by
  induction s with
  | nil => simp [splitLines]
  | cons c cs ih =>
    by_cases hc : c = '\n'
    · simp [splitLines, hc, ih]
    · have hne := splitLines_ne_nil cs
      cases hsp : splitLines cs with
      | nil => exact absurd hsp hne
      | cons l ls =>
        simp [splitLines, hc, ih, hsp]

theorem runLines_append (st : Parser) (a b : List Str) :
    runLines st (a ++ b) = (runLines st a).bind fun st1 => runLines st1 b := by
  induction a generalizing st with
  | nil => simp [runLines]
  | cons l ls ih =>
    simp only [List.cons_append, runLines]
    cases step st l with
    | none => simp
    | some st1 => simpa using ih st1

theorem runLines_parseEnd (st : Parser) (ls : List Str)
    (h : st.parseState = ParseState.parseEnd) : runLines st ls = some st := by
  induction ls with
  | nil => simp [runLines]
  | cons l ls ih => simp [runLines, step, h, ih]

theorem runLines_parseStart (st : Parser) (ls : List Str)
    (h : st.parseState = ParseState.parseStart)
    (hno : ∀ l ∈ ls, matchDate.MatchString l = false) : runLines st ls = some st := by
  induction ls with
  | nil => simp [runLines]
  | cons l ls ih =>
    have h1 : matchDate.MatchString l = false := hno l (by simp)
    have h2 : ∀ x ∈ ls, matchDate.MatchString x = false := fun x hx => hno x (by simp [hx])
    simp [runLines, step, h, h1, ih h2]

theorem runLines_parseFields (st : Parser) (ls : List Str)
    (h : st.parseState = ParseState.parseFields)
    (hno : ∀ l ∈ ls, matchLines.MatchString l = false) : runLines st ls = some st := by
  induction ls with
  | nil => simp [runLines]
  | cons l ls ih =>
    have h1 : matchLines.MatchString l = false := hno l (by simp)
    have h2 : ∀ x ∈ ls, matchLines.MatchString x = false := fun x hx => hno x (by simp [hx])
    simp [runLines, step, h, h1, ih h2]

/-- C10: an input whose lines take the reader of `parse7zipOutput` into the state `parseEnd`
gives the same records when a newline and any further text are put after it: the lines after
the second ruler line are ignored, whatever their shape. -/
theorem parse7zipOutput_ignores_epilogue (s t : Str)
    (h : (parseRun s).map (fun st => st.parseState) = some ParseState.parseEnd) :
    parse7zipOutput (s ++ "\n".toList ++ t) = parse7zipOutput s := by
  have hs : s ++ "\n".toList ++ t = s ++ '\n' :: t := by simp
  unfold parse7zipOutput parseRun at *
  rw [hs, splitLines_append_newline, runLines_append]
  cases hr : runLines Parser.init (splitLines s) with
  | none => simp [hr] at h
  | some st =>
    simp [hr] at h
    simp [runLines_parseEnd st _ h]

/-- C5: `parse7zipOutput` returns the empty list of records for an output none of whose lines
matches the header pattern, and for an output with a header line (the first line that
matches the header pattern, the one the reader acts on) and no ruler line of five dash
groups after it. -/
theorem parse7zipOutput_unparseable (output : Str)
    (h : (∀ l ∈ splitLines output, matchDate.MatchString l = false) ∨
      ∃ pre hd post, splitLines output = pre ++ hd :: post ∧
        (∀ l ∈ pre, matchDate.MatchString l = false) ∧
        matchDate.MatchString hd = true ∧
        ∀ l ∈ post, matchLines.MatchString l = false) :
    parse7zipOutput output = some [] := by
  unfold parse7zipOutput parseRun
  rcases h with h | ⟨pre, hd, post, hsplit, hpre, hhd, hpost⟩
  · rw [runLines_parseStart Parser.init _ rfl h]; rfl
  · rw [hsplit, runLines_append, runLines_parseStart Parser.init _ rfl hpre]
    simp only [Option.some_bind, runLines]
    have hstep : step Parser.init hd
        = some { Parser.init with parseState := ParseState.parseFields } := by
      simp [step, Parser.init, hhd]
    rw [hstep]
    simp only
    rw [runLines_parseFields _ post rfl hpost]
    rfl

/-! ## Lemmas on `strconv.ParseInt` -/

theorem parseInt_range (s : Str) :
    -(2 : Int) ^ 63 ≤ (parseInt s).1 ∧ (parseInt s).1 ≤ (2 : Int) ^ 63 - 1 := by
  unfold parseInt
  cases s with
  | nil => simp
  | cons c cs =>
    simp only
    generalize parseUint (if c = '+' ∨ c = '-' then cs else c :: cs) = p
    obtain ⟨un, e⟩ := p
    cases e with
    | none =>
      simp only
      split_ifs <;> simp_all <;> omega
    | some e =>
      cases e with
      | invalidText => simp
      | outOfRange =>
        simp only
        split_ifs <;> simp_all <;> omega

theorem parseInt_neg (s : Str) (h : (parseInt s).1 < 0) : s.head? = some '-' := by
  unfold parseInt at h
  cases s with
  | nil => simp at h
  | cons c cs =>
    simp only at h
    generalize parseUint (if c = '+' ∨ c = '-' then cs else c :: cs) = p at h
    obtain ⟨un, e⟩ := p
    by_cases hc : c = '-'
    · simp [hc]
    · exfalso
      cases e with
      | none =>
        simp only [hc] at h
        split_ifs at h <;> first | omega | simp_all
      | some e =>
        cases e with
        | invalidText => simp at h
        | outOfRange =>
          simp only [hc] at h
          split_ifs at h <;> first | omega | simp_all

theorem step_LoopInv (ls : List Str) (st st1 : Parser) (line : Str) (hl : line ∈ ls)
    (hinv : LoopInv ls st) (hstep : step st line = some st1) : LoopInv ls st1 := by
  obtain ⟨hfiles, hre⟩ := hinv
  unfold step at hstep
  cases hps : st.parseState with
  | parseStart =>
    simp only [hps] at hstep
    split_ifs at hstep <;> (cases hstep; exact ⟨hfiles, hre⟩)
  | parseFields =>
    simp only [hps] at hstep
    split_ifs at hstep
    · cases hstep
      refine ⟨hfiles, ?_⟩
      intro re h
      exact ⟨_, _, _, _, h⟩
    · cases hstep; exact ⟨hfiles, hre⟩
  | parseFiles =>
    simp only [hps] at hstep
    split_ifs at hstep
    · cases hstep
      refine ⟨?_, hre⟩
      intro r hr
      simp only [List.mem_append, List.mem_singleton] at hr
      rcases hr with hr | hr
      · exact hfiles r hr
      · exact Or.inl hr
    · cases hm : st.matchRow with
      | none => simp [hm] at hstep
      | some re =>
        simp only [hm] at hstep
        cases hfind : re.FindStringSubmatch line with
        | none => simp [hfind, fileInfoOfRow] at hstep
        | some row =>
          simp only [hfind, Option.getD_some] at hstep
          cases hinfo : fileInfoOfRow row with
          | none => simp [hinfo] at hstep
          | some info =>
            simp only [hinfo, Option.some.injEq] at hstep
            subst hstep
            refine ⟨?_, ?_⟩
            · intro r hr
              simp only [List.mem_append, List.mem_singleton] at hr
              rcases hr with hr | hr
              · exact hfiles r hr
              · subst hr
                obtain ⟨a, b, c, d, hc⟩ := hre re hm
                exact Or.inr ⟨line, hl, a, b, c, d, re, row, hc, hfind, hinfo⟩
            · intro re1 h1
              exact hre re1 (by simpa [hm] using h1)
  | parseEnd =>
    simp only [hps] at hstep
    cases hstep; exact ⟨hfiles, hre⟩

theorem runLines_LoopInv (ls : List Str) (rest : List Str) (st st1 : Parser)
    (hsub : ∀ l ∈ rest, l ∈ ls) (hinv : LoopInv ls st) (hrun : runLines st rest = some st1) :
    LoopInv ls st1 := by
  induction rest generalizing st with
  | nil =>
    simp only [runLines, Option.some.injEq] at hrun
    subst hrun; exact hinv
  | cons l rest ih =>
    simp only [runLines] at hrun
    cases hs : step st l with
    | none => simp [hs] at hrun
    | some st2 =>
      simp only [hs] at hrun
      exact ih st2 (fun x hx => hsub x (by simp [hx]))
        (step_LoopInv ls st st2 l (hsub l (by simp)) hinv hs) hrun

theorem fileInfoOfRow_size (row : List Str) (r : FileResponse)
    (h : fileInfoOfRow row = some r) :
    ∃ field, row.get? 3 = some field ∧ r.Size = (parseInt (trimSpace field)).1 := by
  unfold fileInfoOfRow at h
  split at h
  · rename_i r1 r3 r5 h1 h3 h5
    simp only [Option.some.injEq] at h
    subst h
    exact ⟨r3, h3, rfl⟩
  · simp at h

/-- C4 (amended): on every input on which `parse7zipOutput` returns, the size of every record
lies in the range of a signed 64-bit integer, and a record has a negative size only when it
was built from a line of the input matched by a compiled row pattern and the third field of
the match, white space trimmed, starts with a minus sign. -/
theorem parse7zipOutput_size_range (output : Str) (files : List FileResponse)
    (h : parse7zipOutput output = some files) (r : FileResponse) (hr : r ∈ files) :
    -(2 : Int) ^ 63 ≤ r.Size ∧ r.Size ≤ (2 : Int) ^ 63 - 1 ∧
      (r.Size < 0 → ∃ line ∈ splitLines output, ∃ a b c d re row field,
        compileRow a b c d = some re ∧ re.FindStringSubmatch line = some row ∧
        fileInfoOfRow row = some r ∧ row.get? 3 = some field ∧
        (trimSpace field).head? = some '-') := by
  unfold parse7zipOutput parseRun at h
  cases hrun : runLines Parser.init (splitLines output) with
  | none => simp [hrun] at h
  | some st =>
    simp only [hrun, Option.map_some', Option.some.injEq] at h
    subst h
    have hinit : LoopInv (splitLines output) Parser.init :=
      ⟨by simp [Parser.init], by simp [Parser.init]⟩
    have hinv := runLines_LoopInv (splitLines output) (splitLines output) Parser.init st
      (fun _ hl => hl) hinit hrun
    rcases hinv.1 r hr with hz | ⟨line, hl, a, b, c, d, re, row, hc, hfind, hinfo⟩
    · subst hz
      simp [FileResponse.empty, FileResponse.Size]
    · obtain ⟨field, hfield, hsize⟩ := fileInfoOfRow_size row r hinfo
      rw [hsize]
      refine ⟨(parseInt_range _).1, (parseInt_range _).2, ?_⟩
      intro hneg
      exact ⟨line, hl, a, b, c, d, re, row, field, hc, hfind, hinfo, hfield,
        parseInt_neg _ hneg⟩

/-! ## The dispatcher -/

theorem jsonFileResponses_children (stat : FileInfo) (tm : Str)
    (htm : marshalTime stat.ModTime = Except.ok tm) (entries : List FileInfo) :
    jsonFileResponses (entries.map (childResponse stat)) =
      Except.ok (entries.map fun e =>
        "\x7b\"directory\":".toList ++ jsonBool e.IsDir ++ ",\"filename\":".toList
          ++ jsonString e.Name ++ ",\"size\":".toList ++ formatInt e.Size
          ++ ",\"mtime\":".toList ++ tm ++ "\x7d".toList) := by
  induction entries with
  | nil => simp [jsonFileResponses]
  | cons e es ih =>
    simp only [List.map_cons, jsonFileResponses, ih]
    simp [childResponse, jsonFileResponse, jsonFileResponses, htm]

/-- C7: for a path that is a directory and an action that is neither `list` nor `stat`,
`handleRequest` returns the error `Cannot open directory` after the one call to `os.Stat`
(no directory read, no tool spawned, nothing written), and `ServeHTTP` writes the one JSON
object with key `error` and that message, ended by the newline of the encoder, and leaves
the header untouched. -/
theorem directory_dispatch_error (f : FileServer) (world : World) (w : ResponseWriter)
    (r : Request) (stat : FileInfo)
    (hstat : world.Stat (f.fileRoot ++ "/".toList ++ r.Path) = Except.ok stat)
    (hdir : stat.IsDir = true)
    (hact : r.QueryGet "action".toList ≠ "list".toList ∧
      r.QueryGet "action".toList ≠ "stat".toList) :
    handleRequest f world w r =
        some { log := [Event.stat (f.fileRoot ++ "/".toList ++ r.Path)], w := w,
               err := some "Cannot open directory".toList } ∧
      ServeHTTP f world w r =
        some { log := [Event.stat (f.fileRoot ++ "/".toList ++ r.Path)],
               w := { header := w.header,
                      body := w.body ++ "\x7b\"error\":\"Cannot open directory\"\x7d\n".toList },
               err := some "Cannot open directory".toList } := by
  have h1 : handleRequest f world w r =
      some { log := [Event.stat (f.fileRoot ++ "/".toList ++ r.Path)], w := w,
             err := some "Cannot open directory".toList } := by
    unfold handleRequest
    simp only [hstat, hdir, if_true]
    rw [if_pos hact]
  refine ⟨h1, ?_⟩
  unfold ServeHTTP
  rw [h1]
  simp only [ResponseWriter.Write]
  have : jsonErrorResponse { Error := "Cannot open directory".toList } ++ ['\n']
      = "\x7b\"error\":\"Cannot open directory\"\x7d\n".toList := by decide
  rw [this]

/-- C9 (amended): for a path that is a regular file and the action `stat`, the body written
is the one JSON object with the keys `directory` (false), `filename`, `size` and `mtime`
(the zero time) in this order and without a key `files`, ended by the newline of the
encoder. -/
theorem stat_regular_file (f : FileServer) (world : World) (w : ResponseWriter)
    (r : Request) (stat : FileInfo)
    (hstat : world.Stat (f.fileRoot ++ "/".toList ++ r.Path) = Except.ok stat)
    (hfile : stat.IsDir = false)
    (hact : r.QueryGet "action".toList = "stat".toList) :
    ServeHTTP f world w r =
      some { log := [Event.stat (f.fileRoot ++ "/".toList ++ r.Path)],
             w := { header := w.header,
                    body := w.body ++ ("\x7b\"directory\":false,\"filename\":".toList
                      ++ jsonString stat.Name ++ ",\"size\":".toList ++ formatInt stat.Size
                      ++ ",\"mtime\":\"0001-01-01T00:00:00Z\"\x7d\n".toList) },
             err := none } := by
  have hz : marshalTime Time.zero = Except.ok "\"0001-01-01T00:00:00Z\"".toList := by rfl
  unfold ServeHTTP handleRequest
  simp only [hstat, hfile, hact, encodeTo, jsonFileResponse, jsonFileResponses, hz,
    ResponseWriter.Write, jsonBool]
  simp

theorem get_Set_Write (w : ResponseWriter) (key value data : Str) :
    ((w.Set key value).Write data).Get key = some value := by
  simp [ResponseWriter.Set, ResponseWriter.Write, ResponseWriter.Get]

theorem get_Set (w : ResponseWriter) (key value : Str) :
    (w.Set key value).Get key = some value := by
  simp [ResponseWriter.Set, ResponseWriter.Get]

/-- C6: for a regular file, the raw download (action none of `stat`, `inspect`, `contents`,
`extract`) sets the header `Content-Disposition` to the disposition, `; filename="`, the
last element of `fileRoot + "/" + URL path` and a closing quote, and an `extract` request
that returns no error sets it likewise with the last element of the `extract` parameter. The
disposition is `attachment` when the parameter `download` is `true` and `inline` otherwise. -/
theorem content_disposition_rule (f : FileServer) (world : World) (w : ResponseWriter)
    (r : Request) (stat : FileInfo)
    (hstat : world.Stat (f.fileRoot ++ "/".toList ++ r.Path) = Except.ok stat)
    (hfile : stat.IsDir = false) :
    (r.QueryGet "action".toList ≠ "stat".toList ∧
        r.QueryGet "action".toList ≠ "inspect".toList ∧
        r.QueryGet "action".toList ≠ "contents".toList ∧
        r.QueryGet "action".toList ≠ "extract".toList →
      ∃ out, handleRequest f world w r = some out ∧
        out.w.Get "Content-Disposition".toList =
          some ((if r.QueryGet "download".toList = "true".toList then "attachment".toList
                  else "inline".toList)
            ++ "; filename=\"".toList ++ pathBase (f.fileRoot ++ "/".toList ++ r.Path)
            ++ "\"".toList)) ∧
      (r.QueryGet "action".toList = "extract".toList →
        ∀ out, handleRequest f world w r = some out → out.err = none →
          out.w.Get "Content-Disposition".toList =
            some ((if r.QueryGet "download".toList = "true".toList then "attachment".toList
                    else "inline".toList)
              ++ "; filename=\"".toList ++ pathBase (r.QueryGet "extract".toList)
              ++ "\"".toList)) := by
  constructor
  · rintro ⟨h1, h2, h3, h4⟩
    unfold handleRequest
    simp only [hstat, hfile, h1, h2, h3, h4, if_false, Bool.false_eq_true]
    cases world.Open (f.fileRoot ++ "/".toList ++ r.Path) with
    | error e =>
      exact ⟨_, rfl, by simp [get_Set, contentDisposition, dispositionOf]⟩
    | ok content =>
      exact ⟨_, rfl, by simp [get_Set_Write, contentDisposition, dispositionOf]⟩
  · intro hact out hout herr
    unfold handleRequest at hout
    have e1 : ("extract".toList : Str) ≠ "stat".toList := by decide
    have e2 : ("extract".toList : Str) ≠ "inspect".toList := by decide
    have e3 : ("extract".toList : Str) ≠ "contents".toList := by decide
    simp only [hstat, hfile, hact, e1, e2, e3, if_false, if_true, Bool.false_eq_true] at hout
    split_ifs at hout with hempty
    · cases hout; simp at herr
    · cases hT : world.TempDir [] "go-fileserver-extract".toList with
      | error e => simp only [hT] at hout; cases hout; simp at herr
      | ok dir =>
        simp only [hT] at hout
        cases hS : world.Start "7z".toList
            ["x".toList, f.fileRoot ++ "/".toList ++ r.Path, "-o".toList ++ dir,
              r.QueryGet "extract".toList] with
        | some e => simp only [hS] at hout; cases hout; simp at herr
        | none =>
          simp only [hS] at hout
          cases hO : world.OpenJoined dir (r.QueryGet "extract".toList) with
          | error e => simp only [hO] at hout; cases hout; simp at herr
          | ok content =>
            simp only [hO, Option.some.injEq] at hout
            subst hout
            simp [get_Set_Write, contentDisposition, dispositionOf]

/-- C8 (amended): for a path that is a directory, the action `list` or `stat` and a directory
read that gives `entries`, the handler hands to the JSON encoder the record of the directory
with one record per entry in the order of the read, each with the name, size and directory
flag of its entry and the modification time of the directory. The modification time can be
marshalled exactly when its year lies in 0..9999 and its zone is under 24 hours; then the
bytes written are the JSON object of the directory, whose `files` array (left out when there
is no entry) holds the objects of the entries in order, each with the `mtime` text of the
directory, and a newline; otherwise nothing but one error object is written. -/
theorem directory_listing (f : FileServer) (world : World) (w : ResponseWriter)
    (r : Request) (stat : FileInfo) (entries : List FileInfo)
    (hstat : world.Stat (f.fileRoot ++ "/".toList ++ r.Path) = Except.ok stat)
    (hdir : stat.IsDir = true)
    (hact : r.QueryGet "action".toList = "list".toList ∨
      r.QueryGet "action".toList = "stat".toList)
    (hread : world.ReadDir (f.fileRoot ++ "/".toList ++ r.Path) = Except.ok entries) :
    handleRequest f world w r =
        some (encodeTo [Event.stat (f.fileRoot ++ "/".toList ++ r.Path),
          Event.readDir (f.fileRoot ++ "/".toList ++ r.Path)] w
          (jsonFileResponse (FileResponse.mk true stat.Name stat.Size stat.ModTime
            (entries.map fun e => FileResponse.mk e.IsDir e.Name e.Size stat.ModTime [])))) ∧
      ((∃ tm, marshalTime stat.ModTime = Except.ok tm) ↔
        (0 ≤ stat.ModTime.year ∧ stat.ModTime.year ≤ 9999 ∧
          (stat.ModTime.offset = 0 ∨ stat.ModTime.offset.natAbs / 60 / 60 < 24))) ∧
      ServeHTTP f world w r =
        some (match marshalTime stat.ModTime with
          | Except.ok tm =>
            { log := [Event.stat (f.fileRoot ++ "/".toList ++ r.Path),
                Event.readDir (f.fileRoot ++ "/".toList ++ r.Path)],
              w := { header := w.header,
                     body := w.body ++ ("\x7b\"directory\":true,\"filename\":".toList
                       ++ jsonString stat.Name ++ ",\"size\":".toList ++ formatInt stat.Size
                       ++ ",\"mtime\":".toList ++ tm
                       ++ (if entries.isEmpty then []
                           else ",\"files\":[".toList
                             ++ commaJoin (entries.map fun e =>
                               "\x7b\"directory\":".toList ++ jsonBool e.IsDir
                                 ++ ",\"filename\":".toList ++ jsonString e.Name
                                 ++ ",\"size\":".toList ++ formatInt e.Size
                                 ++ ",\"mtime\":".toList ++ tm ++ "\x7d".toList)
                             ++ "]".toList)
                       ++ "\x7d\n".toList) },
              err := none }
          | Except.error e =>
            { log := [Event.stat (f.fileRoot ++ "/".toList ++ r.Path),
                Event.readDir (f.fileRoot ++ "/".toList ++ r.Path)],
              w := { header := w.header,
                     body := w.body ++ (jsonErrorResponse { Error := e } ++ "\n".toList) },
              err := some e }) := by
  have hh : handleRequest f world w r =
      some (encodeTo [Event.stat (f.fileRoot ++ "/".toList ++ r.Path),
        Event.readDir (f.fileRoot ++ "/".toList ++ r.Path)] w
        (jsonFileResponse (FileResponse.mk true stat.Name stat.Size stat.ModTime
          (entries.map (childResponse stat))))) := by
    unfold handleRequest
    have hnot : ¬ (r.QueryGet "action".toList ≠ "list".toList ∧
        r.QueryGet "action".toList ≠ "stat".toList) := by
      rintro ⟨ha, hb⟩
      rcases hact with h | h
      · exact ha h
      · exact hb h
    simp only [hstat, hdir, if_true, hread]
    rw [if_neg hnot]
    simp
  refine ⟨hh, ?_, ?_⟩
  · unfold marshalTime
    constructor
    · rintro ⟨tm, htm⟩
      split_ifs at htm with h1 h2
      refine ⟨by omega, by omega, ?_⟩
      by_cases h0 : stat.ModTime.offset = 0
      · exact Or.inl h0
      · right
        by_contra hlt
        exact h2 ⟨h0, by omega⟩
    · rintro ⟨hy0, hy1, hz⟩
      have h1 : ¬ (stat.ModTime.year < 0 ∨ 9999 < stat.ModTime.year) := by omega
      have h2 : ¬ (stat.ModTime.offset ≠ 0 ∧ 24 ≤ stat.ModTime.offset.natAbs / 60 / 60) := by
        rintro ⟨ha, hb⟩
        rcases hz with hz | hz
        · exact ha hz
        · omega
      rw [if_neg h1, if_neg h2]
      exact ⟨_, rfl⟩
  · unfold ServeHTTP
    rw [hh]
    cases htm : marshalTime stat.ModTime with
    | error e =>
      simp [encodeTo, jsonFileResponse, htm, ResponseWriter.Write]
    | ok tm =>
      have hitems := jsonFileResponses_children stat tm htm entries
      cases entries with
      | nil =>
        simp [encodeTo, jsonFileResponse, jsonFileResponses, htm, ResponseWriter.Write,
          jsonBool]
      | cons e es =>
        simp only [encodeTo, jsonFileResponse, htm, hitems, ResponseWriter.Write]
        simp [jsonBool]

/-! ## The reader on well-formed listings -/

theorem filterMap_length_of_isSome {α β : Type} (f : α → Option β) (xs : List α)
    (h : ∀ x ∈ xs, (f x).isSome = true) : (xs.filterMap f).length = xs.length := by
  induction xs with
  | nil => simp
  | cons x rest ih =>
    obtain ⟨y, hy⟩ := Option.isSome_iff_exists.mp (h x (by simp))
    simp only [List.filterMap_cons, hy, List.length_cons]
    rw [ih fun z hz => h z (by simp [hz])]

theorem runLines_rows (st : Parser) (re : Regexp) (rows : List Str)
    (hstate : st.parseState = ParseState.parseFiles) (hre : st.matchRow = some re)
    (hrows : ∀ l ∈ rows, matchLines.MatchString l = false ∧
      (fileInfoOfRow ((re.FindStringSubmatch l).getD [])).isSome = true) :
    runLines st rows = some { st with
      files := st.files ++ rows.filterMap fun l =>
        fileInfoOfRow ((re.FindStringSubmatch l).getD []) } := by
  induction rows generalizing st with
  | nil => simp [runLines]
  | cons l rest ih =>
    obtain ⟨hnr, hsome⟩ := hrows l (by simp)
    obtain ⟨info, hinfo⟩ := Option.isSome_iff_exists.mp hsome
    have hstep : step st l = some { st with files := st.files ++ [info] } := by
      simp [step, hstate, hnr, hre, hinfo]
    simp only [runLines, hstep]
    rw [ih { st with files := st.files ++ [info] } hstate hre
      (fun x hx => hrows x (by simp [hx]))]
    simp [List.filterMap_cons, hinfo]

/-- On a well-formed listing (lines without the header words, the header line, a ruler
line, rows that are no ruler lines and that the row pattern of the ruler matches, a second
ruler line, any further lines) `parse7zipOutput` returns the records of the rows in their
order followed by one zero record: one record more than there are rows. -/
theorem parse7zipOutput_wellformed (output : Str) (pre : List Str) (hdr ruler : Str)
    (rows : List Str) (ruler2 : Str) (post : List Str) (re : Regexp)
    (hlines : splitLines output = pre ++ hdr :: ruler :: (rows ++ ruler2 :: post))
    (hpre : ∀ l ∈ pre, matchDate.MatchString l = false)
    (hhdr : matchDate.MatchString hdr = true)
    (hruler : matchLines.MatchString ruler = true)
    (hre : rulerRow ruler = some re)
    (hrows : ∀ l ∈ rows, matchLines.MatchString l = false ∧
      (fileInfoOfRow ((re.FindStringSubmatch l).getD [])).isSome = true)
    (hruler2 : matchLines.MatchString ruler2 = true) :
    parse7zipOutput output =
        some ((rows.filterMap fun l => fileInfoOfRow ((re.FindStringSubmatch l).getD []))
          ++ [FileResponse.empty]) ∧
      (rows.filterMap fun l => fileInfoOfRow ((re.FindStringSubmatch l).getD [])).length
        = rows.length := by
  constructor
  · unfold parse7zipOutput parseRun
    rw [hlines, runLines_append, runLines_parseStart Parser.init _ rfl hpre]
    simp only [Option.some_bind, runLines]
    have h1 : step Parser.init hdr
        = some { Parser.init with parseState := ParseState.parseFields } := by
      simp [step, Parser.init, hhdr]
    rw [h1]
    simp only
    have h2 : step { Parser.init with parseState := ParseState.parseFields } ruler
        = some { parseState := ParseState.parseFiles, fieldLengths := rulerLengths ruler,
                 matchRow := some re, files := [] } := by
      simp only [step, hruler, if_true, Parser.init]
      rw [← hre]
      rfl
    rw [h2]
    simp only
    rw [runLines_append, runLines_rows _ re rows rfl rfl hrows]
    simp only [Option.some_bind, runLines]
    have h3 : ∀ fs, step (Parser.mk ParseState.parseFiles (rulerLengths ruler) (some re) fs)
          ruler2
        = some (Parser.mk ParseState.parseEnd (rulerLengths ruler) (some re)
            (fs ++ [FileResponse.empty])) := by
      intro fs
      simp [step, hruler2]
    rw [h3]
    simp only
    rw [runLines_parseEnd _ _ rfl]
    simp
  · exact filterMap_length_of_isSome _ rows fun l hl => (hrows l hl).2

/-- In the state `parseFiles` a line that is no ruler line and that the row pattern does
not match makes the reader panic; so does every line that is no ruler line when the row
pattern is nil. -/
theorem step_unmatched_row_panics (st : Parser) (line : Str)
    (hstate : st.parseState = ParseState.parseFiles)
    (hnr : matchLines.MatchString line = false)
    (hno : ∀ re, st.matchRow = some re → re.FindStringSubmatch line = none) :
    step st line = none := by
  cases hm : st.matchRow with
  | none => simp [step, hstate, hnr, hm]
  | some re => simp [step, hstate, hnr, hm, hno re hm, fileInfoOfRow]

/-! ## Lemmas on the matcher -/

theorem takeExactly_append (p : Char → Bool) (a r : Str) (h : ∀ x ∈ a, p x = true) :
    takeExactly p a.length (a ++ r) = some (a, r) := by
  induction a with
  | nil => simp [takeExactly]
  | cons x xs ih =>
    have hx : p x = true := h x (by simp)
    have hxs : ∀ y ∈ xs, p y = true := fun y hy => h y (by simp [hy])
    simp [takeExactly, hx, ih hxs]

theorem takeExactly_some (p : Char → Bool) (n : Nat) (s a r : Str)
    (h : takeExactly p n s = some (a, r)) : s = a ++ r ∧ a.length = n := by
  induction n generalizing s a r with
  | zero =>
    simp only [takeExactly, Option.some.injEq, Prod.mk.injEq] at h
    obtain ⟨h1, h2⟩ := h
    subst h1; subst h2; simp
  | succ n ih =>
    cases s with
    | nil => simp [takeExactly] at h
    | cons x xs =>
      simp only [takeExactly] at h
      split_ifs at h
      cases ht : takeExactly p n xs with
      | none => simp [ht] at h
      | some ar =>
        obtain ⟨a1, r1⟩ := ar
        simp only [ht, Option.some.injEq, Prod.mk.injEq] at h
        obtain ⟨h1, h2⟩ := h
        obtain ⟨h3, h4⟩ := ih xs a1 r1 ht
        subst h1; subst h2
        simp [h3, h4]

theorem greedyStar_inv {α : Type} (Q : Option α → Prop) (p : Char → Bool)
    (k : Str → Str → Option α) (acc s : Str)
    (hk : ∀ a b, s = a ++ b → Q (k (acc.reverse ++ a) b)) : Q (greedyStar p k acc s) := by
  induction s generalizing acc with
  | nil =>
    simp only [greedyStar]
    simpa using hk [] [] rfl
  | cons c cs ih =>
    simp only [greedyStar]
    have h0 : Q (k acc.reverse (c :: cs)) := by simpa using hk [] (c :: cs) rfl
    split_ifs
    · have h1 : Q (greedyStar p k (c :: acc) cs) := by
        apply ih
        intro a b hab
        have := hk (c :: a) b (by simp [hab])
        simpa using this
      cases hg : greedyStar p k (c :: acc) cs with
      | none => simpa using h0
      | some r => rw [hg] at h1; simpa using h1
    · exact h0

theorem greedyPlus_inv {α : Type} (Q : Option α → Prop) (p : Char → Bool)
    (k : Str → Str → Option α) (hnone : Q none) (s : Str)
    (hk : ∀ a b, a ≠ [] → s = a ++ b → Q (k a b)) : Q (greedyPlus p k s) := by
  cases s with
  | nil => simpa [greedyPlus] using hnone
  | cons c cs =>
    simp only [greedyPlus]
    split_ifs
    · apply greedyStar_inv Q p k
      intro a b hab
      have := hk (c :: a) b (by simp) (by simp [hab])
      simpa using this
    · exact hnone

theorem greedyStar_complete {α : Type} (p : Char → Bool) (k : Str → Str → Option α)
    (acc a b : Str) (ha : ∀ x ∈ a, p x = true)
    (hk : (k (acc.reverse ++ a) b).isSome = true) :
    (greedyStar p k acc (a ++ b)).isSome = true := by
  induction a generalizing acc with
  | nil =>
    cases b with
    | nil => simpa [greedyStar] using hk
    | cons c cs =>
      simp only [List.nil_append, greedyStar]
      have h0 : (k acc.reverse (c :: cs)).isSome = true := by simpa using hk
      split_ifs
      · cases greedyStar p k (c :: acc) cs with
        | none => simpa using h0
        | some r => simp
      · exact h0
  | cons x xs ih =>
    have hx : p x = true := ha x (by simp)
    have h1 : (greedyStar p k (x :: acc) (xs ++ b)).isSome = true := by
      apply ih
      · intro y hy; exact ha y (by simp [hy])
      · simpa using hk
    simp only [List.cons_append, greedyStar, hx, if_true]
    obtain ⟨r, hr⟩ := Option.isSome_iff_exists.mp h1
    simp [hr]

theorem greedyPlus_complete {α : Type} (p : Char → Bool) (k : Str → Str → Option α)
    (x : Char) (a b : Str) (hx : p x = true) (ha : ∀ y ∈ a, p y = true)
    (hk : (k (x :: a) b).isSome = true) :
    (greedyPlus p k (x :: a ++ b)).isSome = true := by
  simp only [List.cons_append, greedyPlus, hx, if_true]
  apply greedyStar_complete p k [x] a b ha
  simpa using hk

theorem greedyStar_longest {α : Type} (p : Char → Bool) (k : Str → Str → Option α)
    (acc a b : Str) (r : α) (ha : ∀ x ∈ a, p x = true)
    (hb : ∀ c cs, b = c :: cs → p c = false)
    (hk : k (acc.reverse ++ a) b = some r) :
    greedyStar p k acc (a ++ b) = some r := by
  induction a generalizing acc with
  | nil =>
    cases b with
    | nil => simpa [greedyStar] using hk
    | cons c cs =>
      have hc : p c = false := hb c cs rfl
      simp only [List.nil_append, greedyStar, hc]
      simpa using hk
  | cons x xs ih =>
    have hx : p x = true := ha x (by simp)
    have h1 : greedyStar p k (x :: acc) (xs ++ b) = some r := by
      apply ih
      · intro y hy; exact ha y (by simp [hy])
      · simpa using hk
    simp [greedyStar, hx, h1]

theorem rep_inv (Q : Option (List Str × Str) → Prop) (p : Char → Bool) (n : Nat)
    (ns : List Node) (s : Str) (caps : List Str) (hnone : Q none)
    (hk : ∀ g r, s = g ++ r → g.length = n → Q (matchHere ns r (caps ++ [g]))) :
    Q (matchHere (Node.rep p n true :: ns) s caps) := by
  simp only [matchHere, pushCapture, if_true]
  cases ht : takeExactly p n s with
  | none => exact hnone
  | some gr =>
    obtain ⟨g, r⟩ := gr
    obtain ⟨h1, h2⟩ := takeExactly_some p n s g r ht
    exact hk g r h1 h2

theorem segment_inv (Q : Option (List Str × Str) → Prop) (n : Nat)
    (ns : List Node) (s : Str) (caps : List Str) (hnone : Q none)
    (hk : ∀ g sp r, s = g ++ (sp ++ r) → g.length = n → sp ≠ [] →
      Q (matchHere ns r (caps ++ [g]))) :
    Q (matchHere (Node.rep reDot n true :: Node.plus reSpace false :: ns) s caps) := by
  apply rep_inv Q reDot n _ s caps hnone
  intro g r hs hg
  simp only [matchHere, pushCapture]
  apply greedyPlus_inv Q reSpace _ hnone
  intro sp b hsp hr
  simp only [Bool.false_eq_true, if_false]
  exact hk g sp b (by rw [hs, hr]) hg hsp

theorem segment_complete (n : Nat) (ns : List Node) (g r : Str) (caps : List Str)
    (hg : g.length = n) (hdot : ∀ x ∈ g, reDot x = true)
    (hk : (matchHere ns r (caps ++ [g])).isSome = true) :
    (matchHere (Node.rep reDot n true :: Node.plus reSpace false :: ns)
      (g ++ ' ' :: r) caps).isSome = true := by
  simp only [matchHere, pushCapture, if_true]
  rw [← hg, takeExactly_append reDot g _ hdot]
  simp only
  have := greedyPlus_complete reSpace
    (fun a r1 => matchHere ns r1 (if false = true then caps ++ [g] ++ [a] else caps ++ [g]))
    ' ' [] r (by decide) (by simp) (by simpa using hk)
  simpa using this

/-- The last separator and the name: after a run of one or two spaces a name without white
space is taken whole. -/
theorem tail_name (caps : List Str) (sp name : Str) (hsp : sp = [' '] ∨ sp = [' ', ' '])
    (hne : name ≠ []) (hws : ∀ x ∈ name, reSpace x = false) :
    matchHere [Node.plus reSpace false, Node.plus reDot true, Node.eol] (sp ++ name) caps
      = some (caps ++ [name], []) := by
  have hdot : ∀ x ∈ name, reDot x = true := by
    intro x hx
    have h := hws x hx
    simp only [reSpace, Bool.or_eq_false_iff, decide_eq_false_iff_not] at h
    simp [reDot, h.1.1.1.2]
  obtain ⟨x, xs, hname⟩ : ∃ x xs, name = x :: xs := by
    cases name with
    | nil => exact absurd rfl hne
    | cons x xs => exact ⟨x, xs, rfl⟩
  have hname2 : matchHere [Node.plus reDot true, Node.eol] name caps
      = some (caps ++ [name], []) := by
    subst hname
    simp only [matchHere, pushCapture, if_true, greedyPlus, hdot x (by simp)]
    have := greedyStar_longest reDot
      (fun a r => match r with
        | [] => matchHere [] [] (caps ++ [a])
        | _ :: _ => none) [x] xs [] (caps ++ [x :: xs], [])
      (fun y hy => hdot y (by simp [hy])) (by simp) (by simp [matchHere])
    simpa using this
  have hhead : ∀ c cs, name = c :: cs → reSpace c = false := by
    intro c cs h
    exact hws c (by simp [h])
  rcases hsp with h | h
  · subst h
    simp only [matchHere, pushCapture, Bool.false_eq_true, if_false, List.singleton_append,
      greedyPlus]
    simp only [show reSpace ' ' = true by decide, if_true]
    have := greedyStar_longest reSpace
      (fun _ r => matchHere [Node.plus reDot true, Node.eol] r caps) [' '] [] name
      (caps ++ [name], []) (by simp) hhead hname2
    simpa [matchHere, pushCapture] using this
  · subst h
    simp only [matchHere, pushCapture, Bool.false_eq_true, if_false, List.cons_append,
      List.nil_append, greedyPlus]
    simp only [show reSpace ' ' = true by decide, if_true]
    have := greedyStar_longest reSpace
      (fun _ r => matchHere [Node.plus reDot true, Node.eol] r caps) [' '] [' '] name
      (caps ++ [name], []) (by simp; decide) hhead hname2
    simpa [matchHere, pushCapture] using this

/-- No separator can start inside a name without white space. -/
theorem tail_inside_name (caps : List Str) (m r name : Str) (hname : name = m ++ r)
    (hws : ∀ x ∈ name, reSpace x = false) :
    matchHere [Node.plus reSpace false, Node.plus reDot true, Node.eol] r caps = none := by
  cases r with
  | nil => simp [matchHere, greedyPlus]
  | cons c cs =>
    have hc : reSpace c = false := hws c (by simp [hname])
    simp [matchHere, greedyPlus, hc]

theorem rep_complete (n : Nat) (ns : List Node) (g r : Str) (caps : List Str)
    (hg : g.length = n) (hdot : ∀ x ∈ g, reDot x = true)
    (hk : (matchHere ns r (caps ++ [g])).isSome = true) :
    (matchHere (Node.rep reDot n true :: ns) (g ++ r) caps).isSome = true := by
  simp only [matchHere, pushCapture, if_true]
  rw [← hg, takeExactly_append reDot g _ hdot]
  exact hk

theorem row_match_name (a b c d : Nat) (c1 c2 c3 c4 name : Str)
    (h1 : c1.length = a) (h2 : c2.length = b) (h3 : c3.length = c) (h4 : c4.length = d)
    (hd1 : ∀ x ∈ c1, reDot x = true) (hd2 : ∀ x ∈ c2, reDot x = true)
    (hd3 : ∀ x ∈ c3, reDot x = true) (hd4 : ∀ x ∈ c4, reDot x = true)
    (hne : name ≠ []) (hws : ∀ x ∈ name, reSpace x = false) :
    ∃ g1 g2 g3 g4,
      matchHere
        [Node.rep reDot a true, Node.plus reSpace false,
         Node.rep reDot b true, Node.plus reSpace false,
         Node.rep reDot c true, Node.plus reSpace false,
         Node.rep reDot d true, Node.plus reSpace false,
         Node.plus reDot true, Node.eol]
        (c1 ++ ' ' :: (c2 ++ ' ' :: (c3 ++ ' ' :: (c4 ++ ' ' :: ' ' :: name)))) []
      = some ([g1, g2, g3, g4, name], []) := by
  -- every match that is found ends in the name
  have hsound : EndsInName name
      (matchHere
        [Node.rep reDot a true, Node.plus reSpace false,
         Node.rep reDot b true, Node.plus reSpace false,
         Node.rep reDot c true, Node.plus reSpace false,
         Node.rep reDot d true, Node.plus reSpace false,
         Node.plus reDot true, Node.eol]
        (c1 ++ ' ' :: (c2 ++ ' ' :: (c3 ++ ' ' :: (c4 ++ ' ' :: ' ' :: name)))) []) := by
    refine segment_inv (EndsInName name) a _ _ [] (Or.inl rfl) ?_
    intro g1 s1 r1 hL hg1 hs1
    refine segment_inv (EndsInName name) b _ _ _ (Or.inl rfl) ?_
    intro g2 s2 r2 hr1 hg2 hs2
    refine segment_inv (EndsInName name) c _ _ _ (Or.inl rfl) ?_
    intro g3 s3 r3 hr2 hg3 hs3
    refine rep_inv (EndsInName name) reDot d _ _ _ (Or.inl rfl) ?_
    intro g4 r4 hr3 hg4
    have hl1 : 0 < s1.length := List.length_pos.mpr hs1
    have hl2 : 0 < s2.length := List.length_pos.mpr hs2
    have hl3 : 0 < s3.length := List.length_pos.mpr hs3
    have hk : ∃ k, r4 = (' ' :: ' ' :: name).drop k := by
      refine ⟨(g1 ++ (s1 ++ (g2 ++ (s2 ++ (g3 ++ (s3 ++ g4)))))).length
        - (c1 ++ ' ' :: (c2 ++ ' ' :: (c3 ++ ' ' :: c4))).length, ?_⟩
      have hP : (c1 ++ ' ' :: (c2 ++ ' ' :: (c3 ++ ' ' :: c4))) ++ (' ' :: ' ' :: name)
          = (g1 ++ (s1 ++ (g2 ++ (s2 ++ (g3 ++ (s3 ++ g4)))))) ++ r4 := by
        have : c1 ++ ' ' :: (c2 ++ ' ' :: (c3 ++ ' ' :: (c4 ++ ' ' :: ' ' :: name)))
            = g1 ++ (s1 ++ (g2 ++ (s2 ++ (g3 ++ (s3 ++ (g4 ++ r4)))))) := by
          rw [hL, hr1, hr2, hr3]
        simpa using this
      have hdrop := congrArg
        (List.drop (g1 ++ (s1 ++ (g2 ++ (s2 ++ (g3 ++ (s3 ++ g4)))))).length) hP
      rw [List.drop_left, List.drop_append_eq_append_drop, List.drop_eq_nil_of_le] at hdrop
      · simpa using hdrop.symm
      · simp only [List.length_append, List.length_cons]
        omega
    obtain ⟨k, hk⟩ := hk
    match k, hk with
    | 0, hk =>
      simp only [List.drop] at hk
      rw [hk]
      refine Or.inr ⟨g1, g2, g3, g4, ?_⟩
      have := tail_name ([] ++ [g1] ++ [g2] ++ [g3] ++ [g4]) [' ', ' '] name (Or.inr rfl)
        hne hws
      simpa using this
    | 1, hk =>
      simp only [List.drop] at hk
      rw [hk]
      refine Or.inr ⟨g1, g2, g3, g4, ?_⟩
      have := tail_name ([] ++ [g1] ++ [g2] ++ [g3] ++ [g4]) [' '] name (Or.inl rfl)
        hne hws
      simpa using this
    | k + 2, hk =>
      simp only [List.drop] at hk
      refine Or.inl ?_
      apply tail_inside_name _ (name.take k) r4 name _ hws
      rw [hk, List.take_append_drop]
  -- and a match is found
  have hcomplete : (matchHere
        [Node.rep reDot a true, Node.plus reSpace false,
         Node.rep reDot b true, Node.plus reSpace false,
         Node.rep reDot c true, Node.plus reSpace false,
         Node.rep reDot d true, Node.plus reSpace false,
         Node.plus reDot true, Node.eol]
        (c1 ++ ' ' :: (c2 ++ ' ' :: (c3 ++ ' ' :: (c4 ++ ' ' :: ' ' :: name)))) []).isSome
      = true := by
    apply segment_complete a _ c1 _ [] h1 hd1
    apply segment_complete b _ c2 _ _ h2 hd2
    apply segment_complete c _ c3 _ _ h3 hd3
    apply rep_complete d _ c4 _ _ h4 hd4
    have := tail_name ([] ++ [c1] ++ [c2] ++ [c3] ++ [c4]) [' ', ' '] name (Or.inr rfl)
      hne hws
    simp only [List.cons_append, List.nil_append] at this
    simp only [List.nil_append, List.cons_append, this, Option.isSome_some]
  rcases hsound with h | h
  · rw [h] at hcomplete; simp at hcomplete
  · exact h

/-- A row laid out in the columns of the ruler (four columns of the widths of the ruler,
one space after each of the first three, two after the fourth) whose name is not empty and
holds no white space of the class `\s` is matched by the row pattern with the name as fifth
field, and the record built from it has that file name. -/
theorem row_name_verbatim (a b c d : Nat) (re : Regexp) (c1 c2 c3 c4 name : Str)
    (hre : compileRow a b c d = some re)
    (h1 : c1.length = a) (h2 : c2.length = b) (h3 : c3.length = c) (h4 : c4.length = d)
    (hd1 : ∀ x ∈ c1, x ≠ '\n') (hd2 : ∀ x ∈ c2, x ≠ '\n')
    (hd3 : ∀ x ∈ c3, x ≠ '\n') (hd4 : ∀ x ∈ c4, x ≠ '\n')
    (hne : name ≠ []) (hws : ∀ x ∈ name, reSpace x = false) :
    ∃ row info,
      re.FindStringSubmatch (c1 ++ " ".toList ++ c2 ++ " ".toList ++ c3 ++ " ".toList ++ c4
        ++ "  ".toList ++ name) = some row ∧
      row.get? 5 = some name ∧ fileInfoOfRow row = some info ∧ info.Filename = name := by
  have hline : c1 ++ " ".toList ++ c2 ++ " ".toList ++ c3 ++ " ".toList ++ c4
      ++ "  ".toList ++ name
      = c1 ++ ' ' :: (c2 ++ ' ' :: (c3 ++ ' ' :: (c4 ++ ' ' :: ' ' :: name))) := by
    simp
  have dot : ∀ (s : Str), (∀ x ∈ s, x ≠ '\n') → ∀ x ∈ s, reDot x = true := by
    intro s hs x hx
    simp [reDot, hs x hx]
  obtain ⟨g1, g2, g3, g4, hm⟩ := row_match_name a b c d c1 c2 c3 c4 name h1 h2 h3 h4
    (dot c1 hd1) (dot c2 hd2) (dot c3 hd3) (dot c4 hd4) hne hws
  unfold compileRow at hre
  split_ifs at hre
  simp only [Option.some.injEq] at hre
  subst hre
  rw [hline]
  generalize hL : c1 ++ ' ' :: (c2 ++ ' ' :: (c3 ++ ' ' :: (c4 ++ ' ' :: ' ' :: name))) = L
    at hm
  cases L with
  | nil => simp [matchHere, takeExactly, greedyPlus] at hL
  | cons x xs =>
    refine ⟨(x :: xs) :: [g1, g2, g3, g4, name],
      FileResponse.mk false name (parseInt (trimSpace g3)).1 (timeParse (trimSpace g1)) [],
      ?_, rfl, rfl, rfl⟩
    simp [Regexp.FindStringSubmatch, findFrom, hm]

/-! ## The claims at concrete inputs -/

set_option maxRecDepth 100000

/-- C1 on a listing with two data rows: `parse7zipOutput` returns three records, the two of
the rows and a zero record appended for the second ruler line. -/
theorem parse7zipOutput_terminal_ruler_record :
    parse7zipOutput listingTwoRows = some
      [FileResponse.mk false "readme.md".toList 11
         { year := 2018, month := 3, day := 5, hour := 10, minute := 20, second := 30,
           nsec := 0, offset := 0 } [],
       FileResponse.mk false "src/main".toList 42
         { year := 2018, month := 3, day := 5, hour := 10, minute := 20, second := 31,
           nsec := 0, offset := 0 } [],
       FileResponse.mk false [] 0 Time.zero []] := by
  rfl

/-- C2 on the row of the member `my file.txt` (columns of 19, 5, 12 and 12 characters, one
space between them, two before the name): the record has the file name `file.txt`. -/
theorem parse7zipOutput_spaced_name :
    splitLines listingSpacedName =
        ["   Date      Time    Attr         Size   Compressed  Name".toList,
         "------------------- ----- ------------ ------------  ------------------------".toList,
         "2020-01-01 12:00:00".toList ++ " ".toList ++ "....A".toList ++ " ".toList
           ++ "          11".toList ++ " ".toList ++ "           9".toList ++ "  ".toList
           ++ "my file.txt".toList,
         "------------------- ----- ------------ ------------  ------------------------".toList,
         []] ∧
      (parse7zipOutput listingSpacedName).map (List.map FileResponse.Filename)
        = some ["file.txt".toList, []] := by
  decide

/-- C3 on a listing with a blank line between two rows, and on a listing cut off after a row
and its newline: `parse7zipOutput` panics on the line that does not match the row pattern. -/
theorem parse7zipOutput_malformed_row_panics :
    parse7zipOutput listingBlankLine = none ∧ parse7zipOutput listingCutOff = none := by
  constructor <;> rfl

/-- C4 refuted: a row whose size column holds `-5` gives a record of size -5, so not every
record returned has a size of zero or more. -/
theorem parse7zipOutput_negative_size :
    (parse7zipOutput listingMinusSize).map (List.map FileResponse.Size) = some [-5, 0] ∧
      ¬ ∀ files, parse7zipOutput listingMinusSize = some files →
        ∀ r ∈ files, 0 ≤ r.Size := by
  refine ⟨by decide, fun h => ?_⟩
  have h5 := h
    [FileResponse.mk false "readme.md".toList (-5)
       { year := 2018, month := 3, day := 5, hour := 10, minute := 20, second := 30,
         nsec := 0, offset := 0 } [],
     FileResponse.mk false [] 0 Time.zero []]
    (by rfl) _ (List.mem_cons_self _ _)
  exact absurd h5 (by decide)

/-- Witness of C4 (amended) at the record of size -5 of `listingMinusSize`. -/
theorem parse7zipOutput_size_range_witness :
    (-(2 : Int) ^ 63 ≤ -5 ∧ (-5 : Int) ≤ (2 : Int) ^ 63 - 1) ∧
      ∃ line ∈ splitLines listingMinusSize, ∃ a b c d re row field,
        compileRow a b c d = some re ∧ re.FindStringSubmatch line = some row ∧
        fileInfoOfRow row = some (FileResponse.mk false "readme.md".toList (-5)
          { year := 2018, month := 3, day := 5, hour := 10, minute := 20, second := 30,
            nsec := 0, offset := 0 } []) ∧
        row.get? 3 = some field ∧ (trimSpace field).head? = some '-' :=
  have h := parse7zipOutput_size_range listingMinusSize
    [FileResponse.mk false "readme.md".toList (-5)
       { year := 2018, month := 3, day := 5, hour := 10, minute := 20, second := 30,
         nsec := 0, offset := 0 } [],
     FileResponse.mk false [] 0 Time.zero []]
    (by rfl)
    (FileResponse.mk false "readme.md".toList (-5)
       { year := 2018, month := 3, day := 5, hour := 10, minute := 20, second := 30,
         nsec := 0, offset := 0 } [])
    (List.mem_cons_self _ _)
  ⟨⟨h.1, h.2.1⟩, h.2.2 (by decide)⟩

/-- Witness of C5 at the empty output, at an output without a header line and at an output
with a header line and no ruler line. -/
theorem parse7zipOutput_unparseable_witness :
    parse7zipOutput [] = some [] ∧ parse7zipOutput outputNoHeader = some [] ∧
      parse7zipOutput outputNoRuler = some [] :=
  ⟨parse7zipOutput_unparseable [] (Or.inl (by decide)),
   parse7zipOutput_unparseable outputNoHeader (Or.inl (by decide)),
   parse7zipOutput_unparseable outputNoRuler
     (Or.inr ⟨["Listing archive: pkg.zip".toList],
       "   Date      Time    Attr         Size   Compressed  Name".toList,
       ["2018-03-05 10:20:30 ....A           11            9  readme.md".toList, []],
       by decide, by decide, by decide, by decide⟩)⟩

/-- Witness of C10: the summary line of `7z l` matches the row pattern of the listing, and put
after the second ruler line it adds no record. -/
theorem parse7zipOutput_ignores_epilogue_witness :
    ((compileRow 19 5 12 12).bind fun re =>
        re.FindStringSubmatch
          "2018-03-05 10:20:31                 53           39  2 files".toList).isSome = true ∧
      parse7zipOutput (listingToRuler ++ "\n".toList ++ summaryLine)
        = parse7zipOutput listingToRuler :=
  ⟨by decide, parse7zipOutput_ignores_epilogue listingToRuler summaryLine (by decide)⟩

/-- Witness of C6 at `GET /hello.txt?download=true` and at
`GET /pkg.zip?action=extract&extract=readme.md`. -/
theorem content_disposition_rule_witness :
    (∃ out, handleRequest sampleServer sampleWorld ResponseWriter.fresh downloadRequest = some out ∧
        out.w.Get "Content-Disposition".toList
          = some "attachment; filename=\"hello.txt\"".toList) ∧
      (∃ out, handleRequest sampleServer sampleWorld ResponseWriter.fresh extractRequest = some out ∧
        out.err = none ∧
        out.w.Get "Content-Disposition".toList
          = some "inline; filename=\"readme.md\"".toList) :=
  ⟨(content_disposition_rule sampleServer sampleWorld ResponseWriter.fresh downloadRequest
      helloInfo rfl rfl).1 (by decide),
   ⟨_, rfl, rfl,
    (content_disposition_rule sampleServer sampleWorld ResponseWriter.fresh extractRequest
      pkgInfo rfl rfl).2 (by decide) _ rfl rfl⟩⟩

/-- Witness of C7 at `GET /d?action=inspect`. -/
theorem directory_dispatch_error_witness :
    ServeHTTP sampleServer sampleWorld ResponseWriter.fresh inspectDirRequest =
      some { log := [Event.stat "/srv/files//d".toList],
             w := { header := [],
                    body := "\x7b\"error\":\"Cannot open directory\"\x7d\n".toList },
             err := some "Cannot open directory".toList } :=
  (directory_dispatch_error sampleServer sampleWorld ResponseWriter.fresh inspectDirRequest
    dirInfo rfl rfl (by decide)).2

/-- C8 refuted at `GET /d?action=list` for a directory that is read with two entries and was
last modified in the year 10000: the handler returns an error and writes nothing, and the
body that `ServeHTTP` leaves starts as an error object, not as a record. -/
theorem directory_listing_unmarshallable :
    (lateWorld.Stat "/srv/files//d".toList).toOption.map (fun i => i.IsDir) = some true ∧
      (lateWorld.ReadDir "/srv/files//d".toList).toOption.map List.length = some 2 ∧
      (handleRequest sampleServer lateWorld ResponseWriter.fresh listDirRequest).map
          (fun out => (out.err.isSome, out.w.body)) = some (true, []) ∧
      (ServeHTTP sampleServer lateWorld ResponseWriter.fresh listDirRequest).map
          (fun out => out.w.body.take 9) = some "\x7b\"error\":".toList := by
  decide

/-- Witness of C8 (amended) at `GET /d?action=list`: two records in the order of the read,
both with the time of `d`. -/
theorem directory_listing_witness :
    ServeHTTP sampleServer sampleWorld ResponseWriter.fresh listDirRequest =
      some { log := [Event.stat "/srv/files//d".toList, Event.readDir "/srv/files//d".toList],
             w := { header := [],
                    body := ("\x7b\"directory\":true,\"filename\":\"d\",\"size\":4096,"
                      ++ "\"mtime\":\"2018-03-07T10:20:30+01:00\",\"files\":["
                      ++ "\x7b\"directory\":false,\"filename\":\"a\",\"size\":1,"
                      ++ "\"mtime\":\"2018-03-07T10:20:30+01:00\"\x7d,"
                      ++ "\x7b\"directory\":false,\"filename\":\"b\",\"size\":2,"
                      ++ "\"mtime\":\"2018-03-07T10:20:30+01:00\"\x7d]\x7d\n").toList },
             err := none } :=
  (directory_listing sampleServer sampleWorld ResponseWriter.fresh listDirRequest dirInfo
    dirEntries rfl rfl (Or.inl (by decide)) rfl).2.2

/-- C9 refuted at `GET /hello.txt?action=stat` for the file of three bytes: the body has no
key `files`; it is not the text of the claim, with or without a final newline. -/
theorem stat_regular_file_no_files_key :
    (ServeHTTP sampleServer sampleWorld ResponseWriter.fresh statRequest).map
        (fun out => out.w.body)
      = some ("\x7b\"directory\":false,\"filename\":\"hello.txt\",\"size\":3,"
          ++ "\"mtime\":\"0001-01-01T00:00:00Z\"\x7d\n").toList ∧
    (ServeHTTP sampleServer sampleWorld ResponseWriter.fresh statRequest).map
        (fun out => out.w.body)
      ≠ some ("\x7b\"directory\":false,\"filename\":\"hello.txt\",\"size\":3,"
          ++ "\"mtime\":\"0001-01-01T00:00:00Z\",\"files\":null\x7d").toList ∧
    (ServeHTTP sampleServer sampleWorld ResponseWriter.fresh statRequest).map
        (fun out => out.w.body)
      ≠ some ("\x7b\"directory\":false,\"filename\":\"hello.txt\",\"size\":3,"
          ++ "\"mtime\":\"0001-01-01T00:00:00Z\",\"files\":null\x7d\n").toList := by
  decide

/-- Witness of C9 (amended) at `GET /hello.txt?action=stat`. -/
theorem stat_regular_file_witness :
    ServeHTTP sampleServer sampleWorld ResponseWriter.fresh statRequest =
      some { log := [Event.stat "/srv/files//hello.txt".toList],
             w := { header := [],
                    body := ("\x7b\"directory\":false,\"filename\":\"hello.txt\",\"size\":3,"
                      ++ "\"mtime\":\"0001-01-01T00:00:00Z\"\x7d\n").toList },
             err := none } :=
  stat_regular_file sampleServer sampleWorld ResponseWriter.fresh statRequest helloInfo
    rfl rfl (by decide)

/-- The theorem `parse7zipOutput_wellformed` at `listingTwoRows`: two rows, three records. -/
theorem parse7zipOutput_wellformed_witness :
    ∃ infos, parse7zipOutput listingTwoRows = some (infos ++ [FileResponse.empty]) ∧
      infos.length = 2 :=
  have h := parse7zipOutput_wellformed listingTwoRows
    [[], "7-Zip [64] 16.02".toList, [], "Listing archive: pkg.zip".toList, []]
    "   Date      Time    Attr         Size   Compressed  Name".toList
    "------------------- ----- ------------ ------------  ------------------------".toList
    ["2018-03-05 10:20:30 ....A           11            9  readme.md".toList,
     "2018-03-05 10:20:31 ....A           42           30  src/main".toList]
    "------------------- ----- ------------ ------------  ------------------------".toList
    ["2018-03-05 10:20:31                 53           39  2 files".toList, []]
    sampleRow (by decide) (by decide) (by decide) (by decide) (by rfl) (by decide) (by decide)
  ⟨_, h.1, h.2⟩

/-- The theorem `step_unmatched_row_panics` at an empty line. -/
theorem step_unmatched_row_panics_witness :
    step (Parser.mk ParseState.parseFiles [77, 19, 5, 12, 12, 24] (some sampleRow) []) []
      = none :=
  step_unmatched_row_panics
    (Parser.mk ParseState.parseFiles [77, 19, 5, 12, 12, 24] (some sampleRow) []) []
    rfl (by decide) (fun re h => by cases h; rfl)

/-- The theorem `row_name_verbatim` at the row of `readme.md`. -/
theorem row_name_verbatim_witness :
    ∃ row info,
      sampleRow.FindStringSubmatch
        "2018-03-05 10:20:30 ....A           11            9  readme.md".toList = some row ∧
      row.get? 5 = some "readme.md".toList ∧ fileInfoOfRow row = some info ∧
      info.Filename = "readme.md".toList :=
  row_name_verbatim 19 5 12 12 sampleRow "2018-03-05 10:20:30".toList "....A".toList
    "          11".toList "           9".toList "readme.md".toList
    (by rfl) (by decide) (by decide) (by decide) (by decide)
    (by decide) (by decide) (by decide) (by decide) (by decide) (by decide)

end GoFilesApi
